import Mathlib

/-!
Shallow embedding of `qiskit_ibm_experiment/client/local_client.py`
(`LocalExperimentClient`), a pandas-backed local experiment database.

Modelling conventions:
* A table row (pandas record / JSON object) is an association list
  `Rec = List (String × Value)` over a small JSON-like `Value` type
  (`null` stands for both JSON `null` and pandas `NaN`).
* Scalar comparisons performed by pandas (`df.col == x`) are modelled by
  `peq`, which is equality except that a comparison involving `null`/`NaN`
  is always false, as in pandas.
* `df.sort_values([key, "uuid"], ascending=[b, True])` sorts by a total
  order on `Value`; pandas needs some order on the (dynamically typed)
  column values, and the embedding fixes a concrete one (`vlt`): values of
  distinct runtime kinds are ranked by kind, values of the same kind by the
  usual order of that kind.  The model sorts with `List.insertionSort`,
  which is deterministic, as is the numpy sort on a fixed input.
* `pandas.Series.str.contains(pat)` is modelled as plain (non-anchored)
  substring containment of `pat`; in pandas the pattern is interpreted as a
  regular expression, which coincides with substring containment whenever
  `pat` contains no regex metacharacters.  Rows whose field is not a string
  do not match (`.str` accessor yields NaN there).
* Serialisation to/from the JSON files is modelled as the identity on the
  stored tables; the figure directory is modelled as an association list
  from file name to file bytes, written with overwrite semantics
  (`open(..., "wb")`), never deleted.
* Python `str` slicing/`split`/`startswith` are modelled on `String.data`
  (`sTake`, `sDrop`, `sSplit`, `sPrefixOf`), matching Python character
  (not byte) semantics.
-/

namespace LocalClient

/-- A JSON/pandas cell value.  `null` stands for JSON null and pandas NaN;
`arr` is a JSON array of strings (the shape the client stores for tags). -/
inductive Value where
  | null
  | bool (b : Bool)
  | int (n : Int)
  | str (s : String)
  | arr (l : List String)
deriving DecidableEq, Repr

/-- A table row / JSON object: an association list from column name to value. -/
abbrev Rec := List (String × Value)

/-- Association-list lookup (first occurrence wins), the model of Python
`dict`/pandas keyed access. -/
def alookup {κ β : Type} [DecidableEq κ] : List (κ × β) → κ → Option β
  | [], _ => none
  | (k, v) :: t, k' => if k' = k then some v else alookup t k'

/-- Association-list update: replace the value at the key in place if
present, otherwise append the binding (Python `d[k] = v`). -/
def aset {κ β : Type} [DecidableEq κ] : List (κ × β) → κ → β → List (κ × β)
  | [], k, v => [(k, v)]
  | (k', v') :: t, k, v => if k' = k then (k, v) :: t else (k', v') :: aset t k v

/-- Association-list removal of the first binding of a key (Python `del d[k]`). -/
def aerase {κ β : Type} [DecidableEq κ] : List (κ × β) → κ → List (κ × β)
  | [], _ => []
  | (k', v') :: t, k => if k' = k then t else (k', v') :: aerase t k

/-- The keys of an association list. -/
def akeys {κ β : Type} (l : List (κ × β)) : List κ := l.map Prod.fst

/-- Field read on a row: a missing column reads as `NaN`/`null`. -/
def getF (r : Rec) (k : String) : Value := (alookup r k).getD .null

/-- Whether a JSON payload carries a key (`"uuid" in data_dict`). -/
def hasKey (r : Rec) (k : String) : Bool := (alookup r k).isSome

/-- Field write on a row (`data_dict[k] = v` / `df.at[i, k] = v`). -/
def setF (r : Rec) (k : String) (v : Value) : Rec := aset r k v

/-- Pandas scalar equality test `cell == x`: false whenever either side is
`NaN`/`None`, value equality otherwise. -/
def peq (a b : Value) : Bool :=
  if a = .null ∨ b = .null then false else a = b

/-! ### Python string primitives, modelled on `String.data` -/

/-- Python `len(s)` (in characters). -/
def sLen (s : String) : Nat := s.data.length

/-- Python slice `s[:n]`. -/
def sTake (s : String) (n : Nat) : String := ⟨s.data.take n⟩

/-- Python slice `s[n:]`. -/
def sDrop (s : String) (n : Nat) : String := ⟨s.data.drop n⟩

/-- Python `s.startswith(p)`. -/
def sPrefixOf (p s : String) : Bool := p.data.isPrefixOf s.data

/-- Helper for `sSplit`: split a character list at every occurrence of `c`. -/
def splitCharAux (c : Char) : List Char → List (List Char)
  | [] => [[]]
  | x :: xs =>
    let r := splitCharAux c xs
    if x = c then [] :: r
    else
      match r with
      | [] => [[x]]
      | h :: t => (x :: h) :: t

/-- Python `s.split(c)` for a one-character separator (the client only
splits on `":"` and `","`). -/
def sSplit (c : Char) (s : String) : List String :=
  (splitCharAux c s.data).map (fun l => ⟨l⟩)

/-- Helper for `isSubstr`: non-anchored containment of `p` in a character list. -/
def isInfixL (p : List Char) : List Char → Bool
  | [] => p.isEmpty
  | x :: xs => p.isPrefixOf (x :: xs) || isInfixL p xs

/-- Non-anchored substring containment: `pat` occurs inside `s`.  Models
`Series.str.contains(pat)` for regex-metacharacter-free patterns. -/
def isSubstr (pat s : String) : Bool := isInfixL pat.data s.data

/-- Python `str(v)`, used when building figure file names from a uuid cell. -/
def vstr : Value → String
  | .str s => s
  | .int n => toString n
  | .bool b => if b then "True" else "False"
  | .null => "None"
  | .arr l => toString l

/-! ### A total order on `Value`, used to model `df.sort_values`.

Numpy sorting of an object column needs the values to be comparable; the
embedding fixes a concrete total order: values of distinct kinds compare by
a kind rank, two values of the same kind by the natural order of the kind
(chars by code point). -/

/-- Strict lexicographic order on character lists (by code point). -/
def lexLt : List Char → List Char → Bool
  | [], [] => false
  | [], _ :: _ => true
  | _ :: _, [] => false
  | a :: as, b :: bs => if a.toNat = b.toNat then lexLt as bs else decide (a.toNat < b.toNat)

/-- Strict lexicographic order on lists of strings. -/
def lexListLt : List String → List String → Bool
  | [], [] => false
  | [], _ :: _ => true
  | _ :: _, [] => false
  | a :: as, b :: bs => if a = b then lexListLt as bs else lexLt a.data b.data

/-- Kind rank used to compare values of distinct runtime kinds. -/
def vrank : Value → Nat
  | .null => 0
  | .bool _ => 1
  | .int _ => 2
  | .str _ => 3
  | .arr _ => 4

/-- Strict total order on `Value`. -/
def vlt : Value → Value → Bool
  | .null, .null => false
  | .bool a, .bool b => !a && b
  | .int a, .int b => decide (a < b)
  | .str a, .str b => lexLt a.data b.data
  | .arr a, .arr b => lexListLt a b
  | a, b => decide (vrank a < vrank b)

/-- Non-strict order on `Value` (used for the inclusive time-range bounds
`df.start_time <= t` / `>= t`). -/
def vle (a b : Value) : Bool := a == b || vlt a b

/-! ### Errors -/

/-- The synchronous failures the client can signal.  `entryNotFound` /
`entryExists` are `IBMExperimentEntryNotFound` / `IBMExperimentEntryExists`;
`requestsApi st` is `RequestsApiError` with optional HTTP status code;
`valueError` is Python `ValueError` (the spec's `InvalidArgument`);
`keyError` / `indexError` are uncaught Python `KeyError` / `IndexError`
escaping from dict / empty-frame access. -/
inductive ApiErr where
  | entryNotFound
  | entryExists
  | requestsApi (status : Option Nat)
  | valueError
  | keyError
  | indexError
deriving DecidableEq, Repr

/-! ### Client state -/

/-- The figure store: `self._figures`, a dict from experiment id to a dict
from plot name to plot bytes.  The outer key is a `Value` because
`_get_figure_list` re-keys it with raw uuid cells from the experiments
table, while the plot operations key it with the string `experiment_id`
argument (`Value.str`). -/
abbrev FigMap := List (Value × List (String × String))

/-- The durable copy: the two table files (absent until first save) and the
figure directory, an association list from file name to file bytes. -/
structure DiskState where
  expFile : Option (List Rec)
  resFile : Option (List Rec)
  figFiles : List (String × String)

/-- The in-memory client plus its storage directory. -/
structure ClientState where
  experiments : List Rec
  results : List Rec
  figures : FigMap
  localSave : Bool
  disk : DiskState

/-- `experiment_db_columns` from the source. -/
def experiment_db_columns : List String :=
  ["type", "device_name", "extra", "uuid", "parent_experiment_uuid",
   "hub_id", "group_id", "project_id", "experiment_id", "visibility",
   "tags", "jobs", "notes", "start_time", "end_time", "updated_at"]

/-- `results_db_columns` from the source. -/
def results_db_columns : List String :=
  ["experiment_uuid", "device_components", "fit", "type", "tags", "quality",
   "verified", "uuid", "chisq", "device_name", "created_at", "updated_at"]

/-- `pd.DataFrame([data_dict], columns=cols)`: keep exactly the listed
columns, absent keys become `NaN`. -/
def mkRow (cols : List String) (payload : Rec) : Rec :=
  cols.map (fun c => (c, getF payload c))

/-- The file name under which a figure is stored:
`f"{exp_id}_{figure_name}"`. -/
def fname (e : Value) (n : String) : String := vstr e ++ "_" ++ n

/-- The figure-directory image of the in-memory figure dict: one file per
(experiment id, plot name), named `str(exp_id) + "_" + figure_name`. -/
def render (figs : FigMap) : List (String × String) :=
  figs.flatMap (fun p => p.2.map (fun q => (fname p.1 q.1, q.2)))

/-- `_save_figures`: write every in-memory figure into the directory,
overwriting existing files, leaving other files untouched. -/
def writeFigs (figs : FigMap) (d : List (String × String)) : List (String × String) :=
  (render figs).foldl (fun acc q => aset acc q.1 q.2) d

/-- `save`: when local saving is enabled, serialise both tables and write
all figures to the directory. -/
def save (st : ClientState) : ClientState :=
  if st.localSave then
    { st with disk := { expFile := some st.experiments,
                        resFile := some st.results,
                        figFiles := writeFigs st.figures st.disk.figFiles } }
  else st

/-- `_get_figure_list`: rebuild the figure dict from the directory, keyed by
the uuid cells of the experiments table; a file belongs to an experiment when
its name starts with `str(uuid)`, and the figure name is the file name with
the first `len(str(uuid)) + 1` characters removed. -/
def getFigureList (files : List (String × String)) (exps : List Rec) : FigMap :=
  exps.map (fun r =>
    let us := vstr (getF r "uuid")
    (getF r "uuid",
     files.filterMap (fun q =>
       if sPrefixOf us q.1 then some (sDrop q.1 (sLen us + 1), q.2) else none)))

/-- `init_db`: with local saving, load each table file if present (else an
empty table), rebuild the figure dict from the directory, and save; without
local saving, start empty. -/
def init_db (localSave : Bool) (disk : DiskState) : ClientState :=
  if localSave then
    let exps := disk.expFile.getD []
    let ress := disk.resFile.getD []
    save { experiments := exps, results := ress,
           figures := getFigureList disk.figFiles exps,
           localSave := true, disk := disk }
  else
    { experiments := [], results := [], figures := [],
      localSave := false, disk := disk }

/-- A client constructed with `local_save=True` over a fresh (empty)
storage directory. -/
def initState : ClientState := init_db true ⟨none, none, []⟩

/-- Constructing a new client over the same storage directory (process
restart): `init_db` over the current durable state. -/
def reload (st : ClientState) : ClientState := init_db true st.disk

/-! ### Record mutations -/

/-- Replace the first row satisfying `p` by `f` applied to it;
`none` when no row matches. -/
def updateFirst (p : Rec → Bool) (f : Rec → Rec) : List Rec → Option (List Rec)
  | [] => none
  | r :: t => if p r then some (f r :: t) else (updateFirst p f t).map (r :: ·)

/-- `experiment_upload`: generate a uuid if absent, fail with
`IBMExperimentEntryExists` on a uuid collision, else append the row and save.
`freshId` stands for the `str(uuid.uuid4())` draw. -/
def experiment_upload (st : ClientState) (data : Rec) (freshId : String) :
    ClientState × Except ApiErr Rec :=
  let data := if hasKey data "uuid" then data else setF data "uuid" (.str freshId)
  let u := getF data "uuid"
  if st.experiments.any (fun r => peq (getF r "uuid") u) then
    (st, .error .entryExists)
  else
    let st := { st with experiments := st.experiments ++ [mkRow experiment_db_columns data] }
    (save st, .ok data)

/-- `experiment_update`: fail with `IBMExperimentEntryNotFound` if no row has
the uuid, else merge each payload field into the first matching row, save,
and re-query the row for the response (an `IndexError` escapes when the
update itself renamed the uuid, after the mutation was saved). -/
def experiment_update (st : ClientState) (experiment_id : String) (new_data : Rec) :
    ClientState × Except ApiErr Rec :=
  match updateFirst (fun r => peq (getF r "uuid") (.str experiment_id))
      (fun r => new_data.foldl (fun row q => setF row q.1 q.2) r) st.experiments with
  | none => (st, .error .entryNotFound)
  | some exps =>
    let st := save { st with experiments := exps }
    match st.experiments.find? (fun r => peq (getF r "uuid") (.str experiment_id)) with
    | some r => (st, .ok r)
    | none => (st, .error .indexError)

/-- `experiment_delete`: fail with `IBMExperimentEntryNotFound` if no row has
the uuid, else drop every matching row, save, and return the first dropped
row. -/
def experiment_delete (st : ClientState) (experiment_id : String) :
    ClientState × Except ApiErr Rec :=
  match st.experiments.find? (fun r => peq (getF r "uuid") (.str experiment_id)) with
  | none => (st, .error .entryNotFound)
  | some r =>
    let st := { st with
      experiments := st.experiments.filter (fun s => !peq (getF s "uuid") (.str experiment_id)) }
    (save st, .ok r)

/-- `analysis_result_create`: require a non-null `experiment_uuid`
(`RequestsApiError` without status code otherwise), require the referenced
experiment to exist (`RequestsApiError` 404 otherwise), copy the
experiment's current `device_name` into the payload, generate a uuid if
absent, append the row and save. -/
def analysis_result_create (st : ClientState) (result : Rec) (freshId : String) :
    ClientState × Except ApiErr Rec :=
  match alookup result "experiment_uuid" with
  | none => (st, .error (.requestsApi none))
  | some .null => (st, .error (.requestsApi none))
  | some expId =>
    match st.experiments.find? (fun r => peq (getF r "uuid") expId) with
    | none => (st, .error (.requestsApi (some 404)))
    | some exp =>
      let data := setF result "device_name" (getF exp "device_name")
      let data := if hasKey data "uuid" then data else setF data "uuid" (.str freshId)
      let st := { st with results := st.results ++ [mkRow results_db_columns data] }
      (save st, .ok data)

/-- `analysis_result_update`: like `experiment_update`, on the results table. -/
def analysis_result_update (st : ClientState) (result_id : String) (new_data : Rec) :
    ClientState × Except ApiErr Rec :=
  match updateFirst (fun r => peq (getF r "uuid") (.str result_id))
      (fun r => new_data.foldl (fun row q => setF row q.1 q.2) r) st.results with
  | none => (st, .error .entryNotFound)
  | some ress =>
    let st := save { st with results := ress }
    match st.results.find? (fun r => peq (getF r "uuid") (.str result_id)) with
    | some r => (st, .ok r)
    | none => (st, .error .indexError)

/-- `analysis_result_delete`: like `experiment_delete`, on the results table. -/
def analysis_result_delete (st : ClientState) (result_id : String) :
    ClientState × Except ApiErr Rec :=
  match st.results.find? (fun r => peq (getF r "uuid") (.str result_id)) with
  | none => (st, .error .entryNotFound)
  | some r =>
    let st := { st with
      results := st.results.filter (fun s => !peq (getF s "uuid") (.str result_id)) }
    (save st, .ok r)

/-! ### Plot (blob) operations -/

/-- `experiment_plot_upload`: ensure the experiment has an inner dict, fail
with `RequestsApiError` 409 when the plot name is already present, else
store the bytes and save. -/
def experiment_plot_upload (st : ClientState) (experiment_id : String)
    (plot : String) (plot_name : String) : ClientState × Except ApiErr Bool :=
  let key := Value.str experiment_id
  let figs :=
    match alookup st.figures key with
    | some _ => st.figures
    | none => st.figures ++ [(key, [])]
  let inner := (alookup figs key).getD []
  match alookup inner plot_name with
  | some _ => ({ st with figures := figs }, .error (.requestsApi (some 409)))
  | none =>
    let st := save { st with figures := aset figs key (inner ++ [(plot_name, plot)]) }
    (st, .ok true)

/-- `experiment_plot_update`: an uncaught `KeyError` escapes when the
experiment id has no inner dict at all; `RequestsApiError` 404 when the plot
name is absent; else replace the bytes and save. -/
def experiment_plot_update (st : ClientState) (experiment_id : String)
    (plot : String) (plot_name : String) : ClientState × Except ApiErr (String × Nat) :=
  match alookup st.figures (.str experiment_id) with
  | none => (st, .error .keyError)
  | some inner =>
    match alookup inner plot_name with
    | none => (st, .error (.requestsApi (some 404)))
    | some _ =>
      let st := save { st with figures := aset st.figures (.str experiment_id)
                                  (aset inner plot_name plot) }
      (st, .ok (plot_name, sLen plot))

/-- `experiment_plot_get`: an uncaught `KeyError` escapes when the experiment
id has no inner dict at all; `RequestsApiError` 404 when the plot name is
absent; else return the stored bytes. -/
def experiment_plot_get (st : ClientState) (experiment_id : String)
    (plot_name : String) : Except ApiErr String :=
  match alookup st.figures (.str experiment_id) with
  | none => .error .keyError
  | some inner =>
    match alookup inner plot_name with
    | none => .error (.requestsApi (some 404))
    | some b => .ok b

/-- `experiment_plot_delete`: an uncaught `KeyError` escapes when the
experiment id has no inner dict at all; `RequestsApiError` 404 when the plot
name is absent; else remove the entry.  Note: unlike every other mutation,
this method does not call `save`. -/
def experiment_plot_delete (st : ClientState) (experiment_id : String)
    (plot_name : String) : ClientState × Except ApiErr Unit :=
  match alookup st.figures (.str experiment_id) with
  | none => (st, .error .keyError)
  | some inner =>
    match alookup inner plot_name with
    | none => (st, .error (.requestsApi (some 404)))
    | some _ =>
      ({ st with figures := aset st.figures (.str experiment_id)
                    (aerase inner plot_name) }, .ok ())

/-! ### Mutation sequences -/

/-- One mutating call, with the uuid draws (`str(uuid.uuid4())`) supplied as
data. -/
inductive Op where
  | expUpload (payload : Rec) (freshId : String)
  | expUpdate (id : String) (payload : Rec)
  | expDelete (id : String)
  | resCreate (payload : Rec) (freshId : String)
  | resUpdate (id : String) (payload : Rec)
  | resDelete (id : String)
  | plotUpload (e n c : String)
  | plotUpdate (e n c : String)
  | plotDelete (e n : String)
deriving DecidableEq, Repr

/-- Apply one mutating call; a failed call leaves the state as the client
leaves it (unchanged, except that a failed `experiment_update` /
`analysis_result_update` that renamed the identifier keeps the saved
mutation). -/
def applyOp (st : ClientState) : Op → ClientState
  | .expUpload payload freshId => (experiment_upload st payload freshId).1
  | .expUpdate id payload => (experiment_update st id payload).1
  | .expDelete id => (experiment_delete st id).1
  | .resCreate payload freshId => (analysis_result_create st payload freshId).1
  | .resUpdate id payload => (analysis_result_update st id payload).1
  | .resDelete id => (analysis_result_delete st id).1
  | .plotUpload e n c => (experiment_plot_upload st e c n).1
  | .plotUpdate e n c => (experiment_plot_update st e c n).1
  | .plotDelete e n => (experiment_plot_delete st e n).1

/-- The state after a sequence of mutating calls on a fresh locally-saving
client. -/
def applyOps (ops : List Op) : ClientState := ops.foldl applyOp initState

/-- Whether an operation is a plot deletion (the one mutation that skips the
persistence flush). -/
def Op.isPlotDel : Op → Bool
  | .plotDelete _ _ => true
  | _ => false

/-- The in-memory blob map as the spec views it: (experiment identifier,
plot name) to bytes. -/
def flatLookup (figs : FigMap) (e : Value) (n : String) : Option String :=
  (alookup figs e).bind (fun inner => alookup inner n)

/-! ### List queries -/

/-- `any(x in dftags for x in tags)`: the stored tag cell contains at least
one of the requested tags.  A non-array cell never matches (Python would
raise on `x in non-container`; the model keeps the row out). -/
def tagsAny (cell : Value) (tags : List String) : Bool :=
  match cell with
  | .arr l => tags.any (fun x => decide (x ∈ l))
  | _ => false

/-- `all(x in dftags for x in tags)`: the stored tag cell contains every
requested tag. -/
def tagsAll (cell : Value) (tags : List String) : Bool :=
  match cell with
  | .arr l => tags.all (fun x => decide (x ∈ l))
  | _ => false

/-- `df.type.str.contains(seg)` on one row: a string-typed `type` cell
containing `seg`; rows whose `type` cell is not a string never match. -/
def likeMatches (seg : String) (r : Rec) : Bool :=
  match getF r "type" with
  | .str ty => isSubstr seg ty
  | _ => false

/-- Type filtering, shared by both collections: a `"like:"`-prefixed value
is split on `":"` and its second segment matched by containment
(`df.type.str.contains`); any other value is matched exactly
(`df.type == value`). -/
def typeFilter (v : Option String) (df : List Rec) : List Rec :=
  match v with
  | none => df
  | some t =>
    if sTake t 5 = "like:" then
      df.filter (likeMatches ((sSplit ':' t).getD 1 ""))
    else
      df.filter (fun r => peq (getF r "type") (.str t))

/-- The sort order used by both list calls: primary key the timestamp
column `tf` (ascending when `asc`, else descending), ties broken by
ascending `uuid` (`df.sort_values([tf, "uuid"], ascending=[asc, True])`). -/
def rowLE (tf : String) (asc : Bool) (r s : Rec) : Bool :=
  let a := getF r tf
  let b := getF s tf
  if a = b then vle (getF r "uuid") (getF s "uuid")
  else if asc then vlt a b else vlt b a

/-- Sort a table by `rowLE` (the model of `df.sort_values`). -/
def sortRecs (tf : String) (asc : Bool) (df : List Rec) : List Rec :=
  df.insertionSort (fun r s => rowLE tf asc r s = true)

/-- Validate the `sort_by` argument: after defaulting an omitted argument to
the single token `dflt`, exactly one token of the form `field:asc` or
`field:desc` is accepted; anything else is a `ValueError`.  Returns whether
the order is ascending. -/
def parseSort (field dflt : String) (sort_by : Option (List String)) :
    Except ApiErr Bool :=
  match sort_by.getD [dflt] with
  | [t] =>
    match sSplit ':' t with
    | [f, d] =>
      if f = field && (d == "asc" || d == "desc") then .ok (d == "asc")
      else .error .valueError
    | _ => .error .valueError
  | _ => .error .valueError

/-- `df.iloc[:limit]` with an optional (possibly `None`) limit. -/
def takeOpt (limit : Option Nat) (l : List Rec) : List Rec :=
  match limit with
  | none => l
  | some n => l.take n

/-- The filtering stages of `experiments`, in source order: type filter,
backend filter, parent filter, the unconditional `ValueError` on any
`device_components` request, tag filter (`OR`/`AND`, else `ValueError`),
then the inclusive start-time bounds. -/
def experimentsPipe (st : ClientState) (device_components : Option (List String))
    (experiment_type backend_name : Option String) (tags : Option (List String))
    (parent_id : Option String) (tags_operator : String)
    (start_datetime_before start_datetime_after : Option Value) :
    Except ApiErr (List Rec) :=
  let df := st.experiments
  let df := typeFilter experiment_type df
  let df := match backend_name with
    | none => df
    | some b => df.filter (fun r => peq (getF r "device_name") (.str b))
  let df := match parent_id with
    | none => df
    | some p => df.filter (fun r => peq (getF r "parent_experiment_uuid") (.str p))
  if device_components.isSome then .error .valueError
  else do
    let df ← match tags with
      | none => Except.ok df
      | some ts =>
        if tags_operator = "OR" then
          Except.ok (df.filter (fun r => tagsAny (getF r "tags") ts))
        else if tags_operator = "AND" then
          Except.ok (df.filter (fun r => tagsAll (getF r "tags") ts))
        else Except.error ApiErr.valueError
    let df := match start_datetime_before with
      | none => df
      | some v => df.filter (fun r => vle (getF r "start_time") v)
    let df := match start_datetime_after with
      | none => df
      | some v => df.filter (fun r => vle v (getF r "start_time"))
    Except.ok df

/-- `experiments`: filter, validate `sort_by` against the single allow-listed
field `start_datetime` (default `start_datetime:desc`), sort by
(`start_time`, `uuid`), truncate to `limit`. -/
def experiments (st : ClientState) (limit : Option Nat)
    (device_components : Option (List String))
    (experiment_type backend_name : Option String) (tags : Option (List String))
    (parent_id : Option String) (tags_operator : String)
    (start_datetime_before start_datetime_after : Option Value)
    (sort_by : Option (List String)) : Except ApiErr (List Rec) := do
  let df ← experimentsPipe st device_components experiment_type backend_name
    tags parent_id tags_operator start_datetime_before start_datetime_after
  let asc ← parseSort "start_datetime" "start_datetime:desc" sort_by
  Except.ok (takeOpt limit (sortRecs "start_time" asc df))

/-- A call to `experiments` in which the caller omits the `limit` argument
entirely: the Python signature defaults it to `10`. -/
def experimentsDefaultLimit (st : ClientState)
    (device_components : Option (List String))
    (experiment_type backend_name : Option String) (tags : Option (List String))
    (parent_id : Option String) (tags_operator : String)
    (start_datetime_before start_datetime_after : Option Value)
    (sort_by : Option (List String)) : Except ApiErr (List Rec) :=
  experiments st (some 10) device_components experiment_type backend_name
    tags parent_id tags_operator start_datetime_before start_datetime_after sort_by

/-- The filtering stages of `analysis_results`, in source order:
`experiment_uuid`, result type (exact or `"like:"`), `backend_name`,
`quality`, `verified`, then the tag filter.  The tag argument is a single
string split on `":"` into an operator and a comma-separated tag list; the
operator is compared against the literal `"any:"` (which `split(":")` can
never produce, so that branch is dead) and against `"AND"`; anything else is
a `ValueError`.  `device_components`, `marker` and `created_at` are accepted
and ignored, as in the source. -/
def analysisResultsPipe (st : ClientState) (backend_name : Option String)
    (experiment_uuid result_type quality : Option String)
    (verified : Option Bool) (tags : Option String) : Except ApiErr (List Rec) :=
  let df := st.results
  let df := match experiment_uuid with
    | none => df
    | some u => df.filter (fun r => peq (getF r "experiment_uuid") (.str u))
  let df := typeFilter result_type df
  let df := match backend_name with
    | none => df
    | some b => df.filter (fun r => peq (getF r "backend_name") (.str b))
  let df := match quality with
    | none => df
    | some q => df.filter (fun r => peq (getF r "quality") (.str q))
  let df := match verified with
    | none => df
    | some v => df.filter (fun r => peq (getF r "verified") (.bool v))
  match tags with
  | none => Except.ok df
  | some s =>
    match sSplit ':' s with
    | [operator, tagStr] =>
      let ts := sSplit ',' tagStr
      if operator = "any:" then
        Except.ok (df.filter (fun r => tagsAny (getF r "tags") ts))
      else if operator = "AND" then
        Except.ok (df.filter (fun r => tagsAll (getF r "tags") ts))
      else Except.error ApiErr.valueError
    | _ => Except.error ApiErr.valueError

/-- `analysis_results`: filter, validate `sort_by` against the single
allow-listed field `creation_datetime` (default `creation_datetime:desc`),
sort by (`created_at`, `uuid`), truncate to `limit` (a required argument of
this call, with `None` meaning no truncation). -/
def analysisResults (st : ClientState) (limit : Option Nat)
    (marker : Option String) (backend_name : Option String)
    (device_components : Option (List String))
    (experiment_uuid result_type quality : Option String)
    (verified : Option Bool) (tags : Option String)
    (created_at : Option Value) (sort_by : Option (List String)) :
    Except ApiErr (List Rec) := do
  let _ := marker
  let _ := device_components
  let _ := created_at
  let df ← analysisResultsPipe st backend_name experiment_uuid result_type
    quality verified tags
  let asc ← parseSort "creation_datetime" "creation_datetime:desc" sort_by
  Except.ok (takeOpt limit (sortRecs "created_at" asc df))

/-- `experiment_get`: serialise the first row with the uuid, or
`IBMExperimentEntryNotFound`. -/
def experiment_get (st : ClientState) (experiment_id : String) : Except ApiErr Rec :=
  match st.experiments.find? (fun r => peq (getF r "uuid") (.str experiment_id)) with
  | none => .error .entryNotFound
  | some r => .ok r

/-- `analysis_result_get`: serialise the first row with the uuid, or
`IBMExperimentEntryNotFound`. -/
def analysis_result_get (st : ClientState) (result_id : String) : Except ApiErr Rec :=
  match st.results.find? (fun r => peq (getF r "uuid") (.str result_id)) with
  | none => .error .entryNotFound
  | some r => .ok r

/-! ### Invariants and decidable side conditions used by the theorems -/

/-- First-defined option (Python-dict lookup composition). -/
def ofirst {β : Type} (a b : Option β) : Option β :=
  match a with
  | some v => some v
  | none => b

/-- Lookup preferring the last binding of a key (the net effect of writing a
list of files in order, later writes overwriting earlier ones). -/
def revLookup {κ β : Type} [DecidableEq κ] (l : List (κ × β)) (k : κ) : Option β :=
  alookup l.reverse k

/-- An association list with pairwise-distinct keys (every Python dict). -/
def NodupKeys {κ β : Type} (l : List (κ × β)) : Prop := (akeys l).Nodup

/-- Well-formedness of the in-memory figure dict: distinct outer keys and
distinct plot names per experiment (automatic for Python nested dicts). -/
def FigsWF (figs : FigMap) : Prop :=
  NodupKeys figs ∧ ∀ p ∈ figs, NodupKeys p.2

/-- The persistence invariant of a locally-saving client: both table files
hold exactly the in-memory tables, the figure directory has distinct file
names, each file holds the bytes of the last write of that name (which, in
the absence of plot deletions, is the current in-memory figure content),
and the figure dict is well formed. -/
def Inv (st : ClientState) : Prop :=
  st.localSave = true ∧
  st.disk.expFile = some st.experiments ∧
  st.disk.resFile = some st.results ∧
  NodupKeys st.disk.figFiles ∧
  (∀ fn, alookup st.disk.figFiles fn = revLookup (render st.figures) fn) ∧
  FigsWF st.figures

/-- No operation of the sequence is a plot deletion. -/
def noPlotDel (ops : List Op) : Bool := ops.all (fun op => !op.isPlotDel)

/-- Every stored figure belongs to an experiment currently in the
experiments table (no orphan blobs). -/
def figOwnersOk (st : ClientState) : Bool :=
  st.figures.all (fun p =>
    p.2.isEmpty || st.experiments.any (fun r => getF r "uuid" == p.1))

/-- No experiment's uuid string is a proper prefix of another figure's file
name: `str(uuid)` may begin a figure file name `f"{e}_{n}"` only when the
uuid is `e` itself.  This is what makes `_get_figure_list`'s
`filename.startswith(exp_id)` grouping unambiguous. -/
def figPrefixOk (st : ClientState) : Bool :=
  st.experiments.all (fun r =>
    st.figures.all (fun p =>
      p.2.all (fun q =>
        !(sPrefixOf (vstr (getF r "uuid")) (fname p.1 q.1)) ||
          (getF r "uuid" == p.1))))

/-- An operation that never rewrites an experiment identifier: an
`experiment_update` whose payload does not mention `uuid`, an
`experiment_upload` whose explicit `uuid` (if any) is not null, or any
operation that does not touch the experiments table. -/
def Op.uuidSafe : Op → Bool
  | .expUpdate _ payload => !hasKey payload "uuid"
  | .expUpload payload _ => !hasKey payload "uuid" || !(getF payload "uuid" == .null)
  | _ => true

/-- The sort direction a `sort_by` argument denotes: ascending exactly when
the (single) token's second `":"`-segment is `asc`; an omitted argument
means descending. -/
def ascOf (sort_by : Option (List String)) : Bool :=
  match sort_by with
  | none => false
  | some [t] => (sSplit ':' t).getD 1 "" == "asc"
  | some _ => false

/-- The record list of a successful query (empty on error); used to phrase
closed witnesses. -/
def exOk (x : Except ApiErr (List Rec)) : List Rec :=
  match x with
  | .ok l => l
  | .error _ => []

/-! ### Concrete fixture states used by witnesses and counterexamples -/

/-- A locally-saving client holding one experiment `e1`. -/
def wSt1 : ClientState :=
  (experiment_upload initState
    [("uuid", .str "e1"), ("device_name", .str "d1"), ("type", .str "xay"),
     ("start_time", .int 5), ("tags", .arr ["a"])] "f1").1

/-- `wSt1` plus a second experiment `e2` with a later start time. -/
def wSt2 : ClientState :=
  (experiment_upload wSt1
    [("uuid", .str "e2"), ("device_name", .str "d2"), ("type", .str "other"),
     ("start_time", .int 7), ("tags", .arr ["b"])] "f2").1

/-- `wSt2` plus two analysis results on `e1`. -/
def wSt3 : ClientState :=
  (analysis_result_create
    ((analysis_result_create wSt2
        [("experiment_uuid", .str "e1"), ("type", .str "T1"),
         ("created_at", .int 3), ("tags", .arr ["a"])] "r1").1)
    [("experiment_uuid", .str "e1"), ("type", .str "T2"),
     ("created_at", .int 9), ("tags", .arr ["a", "b"])] "r2").1

/-- `wSt1` with one plot `p` stored (and flushed) for experiment `e1`. -/
def wPlot : ClientState := (experiment_plot_upload wSt1 "e1" "BYTES" "p").1

/-- A mutation sequence with no plot deletion, no orphan figures and no
uuid prefix overlap: upload experiment `e1`, then a plot for it. -/
def wOps : List Op :=
  [Op.expUpload [("uuid", .str "e1"), ("device_name", .str "d1")] "f1",
   Op.plotUpload "e1" "p" "B"]

/-- A client holding eleven experiments (more than the default limit). -/
def wMany : ClientState :=
  { experiments := (List.range 11).map (fun i =>
      mkRow experiment_db_columns
        [("uuid", .str (toString i)), ("start_time", .int i)]),
    results := [], figures := [], localSave := false,
    disk := ⟨none, none, []⟩ }

/-! ## Association-list lemmas -/

theorem alookup_cons {κ β : Type} [DecidableEq κ] (k0 : κ) (v0 : β) (t : List (κ × β)) (k : κ) :
    alookup ((k0, v0) :: t) k = if k = k0 then some v0 else alookup t k := rfl

theorem akeys_cons {κ β : Type} (p : κ × β) (t : List (κ × β)) :
    akeys (p :: t) = p.1 :: akeys t := rfl

theorem alookup_aset {κ β : Type} [DecidableEq κ] (l : List (κ × β)) (k : κ) (v : β) (k' : κ) :
    alookup (aset l k v) k' = if k' = k then some v else alookup l k' := by
  induction l with
  | nil => simp [aset, alookup]
  | cons p t ih =>
    obtain ⟨k0, v0⟩ := p
    by_cases h : k0 = k
    · subst h
      by_cases h' : k' = k0 <;> simp [aset, alookup_cons, h']
    · by_cases h' : k' = k0
      · subst h'
        simp [aset, h, alookup_cons]
      · simp [aset, h, alookup_cons, h', ih]

theorem akeys_aset {κ β : Type} [DecidableEq κ] (l : List (κ × β)) (k : κ) (v : β) :
    akeys (aset l k v) = if k ∈ akeys l then akeys l else akeys l ++ [k] := by
  induction l with
  | nil => simp [aset, akeys]
  | cons p t ih =>
    obtain ⟨k0, v0⟩ := p
    by_cases h : k0 = k
    · subst h
      simp [aset, akeys]
    · have hne : ¬k = k0 := fun hh => h hh.symm
      simp only [aset, if_neg h, akeys_cons, ih]
      by_cases hm : k ∈ akeys t
      · simp [hm, hne, akeys_cons]
      · simp [hm, hne, akeys_cons]

theorem nodupKeys_aset {κ β : Type} [DecidableEq κ] (l : List (κ × β)) (k : κ) (v : β)
    (h : NodupKeys l) : NodupKeys (aset l k v) := by
  unfold NodupKeys at *
  rw [akeys_aset]
  by_cases hm : k ∈ akeys l
  · simpa [hm]
  · simp only [hm, if_false]
    refine List.Nodup.append h (List.nodup_singleton k) ?_
    intro a ha hak
    simp at hak
    subst hak
    exact hm ha

theorem alookup_append {κ β : Type} [DecidableEq κ] (l1 l2 : List (κ × β)) (k : κ) :
    alookup (l1 ++ l2) k = ofirst (alookup l1 k) (alookup l2 k) := by
  induction l1 with
  | nil => simp [alookup, ofirst]
  | cons p t ih =>
    obtain ⟨k0, v0⟩ := p
    by_cases h : k = k0
    · simp [alookup_cons, h, ofirst]
    · simp [alookup_cons, h, ih]

theorem alookup_isSome_iff_mem {κ β : Type} [DecidableEq κ] (l : List (κ × β)) (k : κ) :
    (alookup l k).isSome ↔ k ∈ akeys l := by
  induction l with
  | nil => simp [alookup, akeys]
  | cons p t ih =>
    obtain ⟨k0, v0⟩ := p
    by_cases h : k = k0
    · simp [alookup_cons, h, akeys_cons]
    · simpa [alookup_cons, h, akeys_cons] using ih

theorem alookup_eq_none_iff {κ β : Type} [DecidableEq κ] (l : List (κ × β)) (k : κ) :
    alookup l k = none ↔ k ∉ akeys l := by
  rw [← alookup_isSome_iff_mem]
  cases alookup l k <;> simp

theorem alookup_eq_some_mem {κ β : Type} [DecidableEq κ] {l : List (κ × β)} {k : κ} {v : β}
    (h : alookup l k = some v) : (k, v) ∈ l := by
  induction l with
  | nil => simp [alookup] at h
  | cons p t ih =>
    obtain ⟨k0, v0⟩ := p
    by_cases hk : k = k0
    · subst hk
      simp [alookup_cons] at h
      simp [h]
    · simp [alookup_cons, hk] at h
      exact List.mem_cons_of_mem _ (ih h)

theorem mem_alookup_of_nodup {κ β : Type} [DecidableEq κ] {l : List (κ × β)} {k : κ} {v : β}
    (hnd : NodupKeys l) (h : (k, v) ∈ l) : alookup l k = some v := by
  induction l with
  | nil => simp at h
  | cons p t ih =>
    obtain ⟨k0, v0⟩ := p
    have hnd2 : k0 ∉ akeys t ∧ NodupKeys t := by
      unfold NodupKeys at hnd ⊢
      rw [akeys_cons] at hnd
      exact List.nodup_cons.mp hnd
    rcases List.mem_cons.mp h with h1 | h1
    · cases h1
      simp [alookup_cons]
    · have hk : k ≠ k0 := by
        intro hh
        subst hh
        exact hnd2.1 (List.mem_map.mpr ⟨(k, v), h1, rfl⟩)
      rw [alookup_cons, if_neg hk]
      exact ih hnd2.2 h1

theorem alookup_reverse_append {κ β : Type} [DecidableEq κ] (l : List (κ × β)) (p : κ × β) (k : κ) :
    revLookup (l ++ [p]) k = if k = p.1 then some p.2 else revLookup l k := by
  unfold revLookup
  rw [List.reverse_append]
  obtain ⟨k0, v0⟩ := p
  simp [alookup_cons]

/-- Net effect of writing a list of files in order over an existing
directory: the last write of a name wins, other names are untouched. -/
theorem alookup_writeAll {κ β : Type} [DecidableEq κ] (entries : List (κ × β)) :
    ∀ (d : List (κ × β)) (k : κ),
      alookup (entries.foldl (fun acc q => aset acc q.1 q.2) d) k =
        ofirst (revLookup entries k) (alookup d k) := by
  induction entries with
  | nil => intro d k; simp [revLookup, alookup, ofirst]
  | cons p t ih =>
    intro d k
    simp only [List.foldl_cons, ih]
    have : revLookup (p :: t) k = ofirst (revLookup t k) (if k = p.1 then some p.2 else none) := by
      unfold revLookup
      simp only [List.reverse_cons, alookup_append]
      cases h : alookup t.reverse k <;> simp [ofirst, alookup_cons, alookup]
    rw [this, alookup_aset]
    cases h : revLookup t k <;> by_cases hk : k = p.1 <;> simp [ofirst, hk]

theorem nodupKeys_writeAll {κ β : Type} [DecidableEq κ] (entries : List (κ × β)) :
    ∀ d : List (κ × β), NodupKeys d →
      NodupKeys (entries.foldl (fun acc q => aset acc q.1 q.2) d) := by
  induction entries with
  | nil => intro d hd; simpa using hd
  | cons p t ih =>
    intro d hd
    exact ih _ (nodupKeys_aset _ _ _ hd)

/-! ## The sort order is a total preorder -/

theorem char_eq_of_toNat_eq {a b : Char} (h : a.toNat = b.toNat) : a = b :=
  Char.eq_of_val_eq (UInt32.eq_of_val_eq (Fin.ext h))

theorem lexLt_irrefl (a : List Char) : lexLt a a = false := by
  induction a with
  | nil => rfl
  | cons x xs ih => simp [lexLt, ih]

theorem lexLt_trans : ∀ a b c : List Char,
    lexLt a b = true → lexLt b c = true → lexLt a c = true := by
  intro a
  induction a with
  | nil =>
    intro b c hab hbc
    cases b with
    | nil => exact hbc
    | cons y ys =>
      cases c with
      | nil => simp [lexLt] at hbc
      | cons z zs => rfl
  | cons x xs ih =>
    intro b c hab hbc
    cases b with
    | nil => simp [lexLt] at hab
    | cons y ys =>
      cases c with
      | nil => simp [lexLt] at hbc
      | cons z zs =>
        simp only [lexLt] at hab hbc ⊢
        by_cases hxy : x.toNat = y.toNat
        · by_cases hyz : y.toNat = z.toNat
          · rw [if_pos hxy] at hab
            rw [if_pos hyz] at hbc
            rw [if_pos (hxy.trans hyz)]
            exact ih ys zs hab hbc
          · rw [if_pos hxy] at hab
            rw [if_neg hyz] at hbc
            have hxz : ¬x.toNat = z.toNat := by rw [hxy]; exact hyz
            rw [if_neg hxz]
            simp at hbc ⊢
            omega
        · rw [if_neg hxy] at hab
          by_cases hyz : y.toNat = z.toNat
          · have hxz : ¬x.toNat = z.toNat := by rw [← hyz]; exact hxy
            rw [if_neg hxz]
            simpa [← hyz] using hab
          · rw [if_neg hyz] at hbc
            simp at hab hbc
            have hxz : ¬x.toNat = z.toNat := by omega
            rw [if_neg hxz]
            simp
            omega

theorem lexLt_total_ne : ∀ a b : List Char, a ≠ b →
    lexLt a b = true ∨ lexLt b a = true := by
  intro a
  induction a with
  | nil =>
    intro b hne
    cases b with
    | nil => exact absurd rfl hne
    | cons y ys => left; rfl
  | cons x xs ih =>
    intro b hne
    cases b with
    | nil => right; rfl
    | cons y ys =>
      by_cases hxy : x.toNat = y.toNat
      · have hx : x = y := char_eq_of_toNat_eq hxy
        subst hx
        have hys : xs ≠ ys := fun hh => hne (by rw [hh])
        rcases ih ys hys with h | h
        · left; simpa [lexLt] using h
        · right; simpa [lexLt] using h
      · have hyx : ¬y.toNat = x.toNat := fun hh => hxy hh.symm
        rcases Nat.lt_or_ge x.toNat y.toNat with h | h
        · left; simp [lexLt, hxy]; omega
        · right; simp [lexLt, hyx]; omega

theorem lexListLt_irrefl (a : List String) : lexListLt a a = false := by
  induction a with
  | nil => rfl
  | cons x xs ih => simp [lexListLt, ih]

theorem lexListLt_trans : ∀ a b c : List String,
    lexListLt a b = true → lexListLt b c = true → lexListLt a c = true := by
  intro a
  induction a with
  | nil =>
    intro b c hab hbc
    cases b with
    | nil => exact hbc
    | cons y ys =>
      cases c with
      | nil => simp [lexListLt] at hbc
      | cons z zs => rfl
  | cons x xs ih =>
    intro b c hab hbc
    cases b with
    | nil => simp [lexListLt] at hab
    | cons y ys =>
      cases c with
      | nil => simp [lexListLt] at hbc
      | cons z zs =>
        simp only [lexListLt] at hab hbc ⊢
        by_cases hxy : x = y
        · subst hxy
          by_cases hyz : x = z
          · subst hyz
            simp only [if_pos rfl] at hab hbc ⊢
            exact ih ys zs hab hbc
          · rw [if_pos rfl] at hab
            rw [if_neg hyz] at hbc
            rw [if_neg hyz]
            exact hbc
        · rw [if_neg hxy] at hab
          by_cases hyz : y = z
          · subst hyz
            rw [if_neg hxy]
            exact hab
          · rw [if_neg hyz] at hbc
            by_cases hxz : x = z
            · subst hxz
              exfalso
              have h1 := lexLt_trans _ _ _ hab hbc
              rw [lexLt_irrefl] at h1
              exact Bool.noConfusion h1
            · rw [if_neg hxz]
              exact lexLt_trans _ _ _ hab hbc

theorem lexListLt_total_ne : ∀ a b : List String, a ≠ b →
    lexListLt a b = true ∨ lexListLt b a = true := by
  intro a
  induction a with
  | nil =>
    intro b hne
    cases b with
    | nil => exact absurd rfl hne
    | cons y ys => left; rfl
  | cons x xs ih =>
    intro b hne
    cases b with
    | nil => right; rfl
    | cons y ys =>
      by_cases hxy : x = y
      · subst hxy
        have hys : xs ≠ ys := fun hh => hne (by rw [hh])
        rcases ih ys hys with h | h
        · left; simpa [lexListLt] using h
        · right; simpa [lexListLt] using h
      · have hd : x.data ≠ y.data := fun hh => hxy (String.ext hh)
        have hyx : ¬y = x := fun hh => hxy hh.symm
        rcases lexLt_total_ne x.data y.data hd with h | h
        · left; simp [lexListLt, hxy, h]
        · right; simp [lexListLt, hyx, h]

theorem vlt_irrefl (a : Value) : vlt a a = false := by
  cases a with
  | null => rfl
  | bool b => cases b <;> rfl
  | int n => simp [vlt]
  | str s => simp [vlt, lexLt_irrefl]
  | arr l => simp [vlt, lexListLt_irrefl]

theorem vlt_trans : ∀ a b c : Value,
    vlt a b = true → vlt b c = true → vlt a c = true := by
  intro a b c hab hbc
  cases a <;> cases b <;> cases c <;>
    simp_all only [vlt, vrank, decide_eq_true_eq] <;>
    first
      | omega
      | (try exact lexLt_trans _ _ _ hab hbc)
  case bool.bool.bool x y z =>
    cases x <;> cases y <;> cases z <;> simp_all
  case arr.arr.arr x y z =>
    exact lexListLt_trans _ _ _ hab hbc

theorem vlt_total_ne : ∀ a b : Value, a ≠ b →
    vlt a b = true ∨ vlt b a = true := by
  intro a b hne
  cases a <;> cases b <;>
    simp_all only [vlt, vrank, decide_eq_true_eq, ne_eq, Value.str.injEq,
      Value.int.injEq, Value.bool.injEq, Value.arr.injEq] <;>
    try omega
  case null.null => exact absurd trivial hne
  case bool.bool x y => cases x <;> cases y <;> simp_all
  case str.str s t =>
    exact lexLt_total_ne s.data t.data (fun hh => hne (String.ext hh))
  case arr.arr x y =>
    exact lexListLt_total_ne x y hne

theorem vlt_asymm {a b : Value} (h : vlt a b = true) : vlt b a = false := by
  by_contra hc
  have hba : vlt b a = true := by
    cases hval : vlt b a
    · exact absurd hval hc
    · rfl
  have := vlt_trans a b a h hba
  rw [vlt_irrefl] at this
  exact Bool.noConfusion this

theorem vle_refl (a : Value) : vle a a = true := by simp [vle]

theorem vle_trans : ∀ a b c : Value,
    vle a b = true → vle b c = true → vle a c = true := by
  intro a b c hab hbc
  simp only [vle, Bool.or_eq_true, beq_iff_eq] at hab hbc ⊢
  rcases hab with h1 | h1
  · subst h1; exact hbc
  · rcases hbc with h2 | h2
    · subst h2; right; exact h1
    · right; exact vlt_trans _ _ _ h1 h2

theorem vle_total : ∀ a b : Value, vle a b = true ∨ vle b a = true := by
  intro a b
  by_cases h : a = b
  · subst h; left; exact vle_refl a
  · rcases vlt_total_ne a b h with h1 | h1
    · left; simp [vle, h1]
    · right; simp [vle, h1]

theorem rowLE_trans (tf : String) (asc : Bool) : ∀ r s t : Rec,
    rowLE tf asc r s = true → rowLE tf asc s t = true → rowLE tf asc r t = true := by
  intro r s t hrs hst
  simp only [rowLE] at hrs hst ⊢
  by_cases h1 : getF r tf = getF s tf
  · rw [if_pos h1] at hrs
    by_cases h2 : getF s tf = getF t tf
    · rw [if_pos h2] at hst
      rw [if_pos (h1.trans h2)]
      exact vle_trans _ _ _ hrs hst
    · rw [if_neg h2] at hst
      have h3 : getF r tf ≠ getF t tf := fun hh => h2 (h1 ▸ hh)
      rw [if_neg h3, h1]
      exact hst
  · rw [if_neg h1] at hrs
    by_cases h2 : getF s tf = getF t tf
    · have h3 : getF r tf ≠ getF t tf := fun hh => h1 (hh.trans h2.symm)
      rw [if_neg h3, ← h2]
      exact hrs
    · rw [if_neg h2] at hst
      have h3 : getF r tf ≠ getF t tf := by
        intro hh
        cases asc with
        | false =>
          simp only [Bool.false_eq_true, if_false] at hrs hst
          have h4 := vlt_trans _ _ _ hst hrs
          rw [hh, vlt_irrefl] at h4
          exact Bool.noConfusion h4
        | true =>
          simp only [if_true] at hrs hst
          have h4 := vlt_trans _ _ _ hrs hst
          rw [hh, vlt_irrefl] at h4
          exact Bool.noConfusion h4
      rw [if_neg h3]
      cases asc with
      | false =>
        simp only [Bool.false_eq_true, if_false] at hrs hst ⊢
        exact vlt_trans _ _ _ hst hrs
      | true =>
        simp only [if_true] at hrs hst ⊢
        exact vlt_trans _ _ _ hrs hst

theorem rowLE_total (tf : String) (asc : Bool) : ∀ r s : Rec,
    rowLE tf asc r s = true ∨ rowLE tf asc s r = true := by
  intro r s
  simp only [rowLE]
  by_cases h : getF r tf = getF s tf
  · rw [if_pos h, if_pos h.symm]
    exact vle_total _ _
  · have h' : getF s tf ≠ getF r tf := fun hh => h hh.symm
    rw [if_neg h, if_neg h']
    rcases vlt_total_ne _ _ h with h1 | h1 <;> cases asc <;> simp [h1]

/-! ## Query-engine lemmas -/

theorem sortRecs_sorted (tf : String) (asc : Bool) (df : List Rec) :
    List.Sorted (fun r s => rowLE tf asc r s = true) (sortRecs tf asc df) := by
  haveI : IsTotal Rec (fun r s => rowLE tf asc r s = true) := ⟨rowLE_total tf asc⟩
  haveI : IsTrans Rec (fun r s => rowLE tf asc r s = true) := ⟨rowLE_trans tf asc⟩
  exact List.sorted_insertionSort _ df

theorem sortRecs_perm (tf : String) (asc : Bool) (df : List Rec) :
    (sortRecs tf asc df).Perm df :=
  List.perm_insertionSort _ df

theorem takeOpt_sublist (lim : Option Nat) (l : List Rec) :
    (takeOpt lim l).Sublist l := by
  cases lim with
  | none => exact List.Sublist.refl l
  | some n => exact List.take_sublist n l

theorem parseSort_asc {field dflt : String} {sb : Option (List String)} {b : Bool}
    (hd : sSplit ':' dflt = [field, "desc"])
    (h : parseSort field dflt sb = .ok b) : b = ascOf sb := by
  unfold parseSort at h
  split at h
  · rename_i t heq
    split at h
    · rename_i f d heq2
      split at h
      · rename_i hc
        simp only [Except.ok.injEq] at h
        subst h
        simp only [Bool.and_eq_true, decide_eq_true_eq] at hc
        cases sb with
        | none =>
          simp only [Option.getD] at heq
          cases heq
          rw [hd] at heq2
          cases heq2
          rfl
        | some l =>
          simp only [Option.getD] at heq
          subst heq
          simp [ascOf, heq2]
      · exact absurd h (by simp)
    · exact absurd h (by simp)
  · exact absurd h (by simp)

theorem experiments_ok_shape {st : ClientState} {lim : Option Nat}
    {dc : Option (List String)} {et bn : Option String} {tg : Option (List String)}
    {pid : Option String} {top : String} {b4 af : Option Value}
    {sb : Option (List String)} {l : List Rec}
    (h : experiments st lim dc et bn tg pid top b4 af sb = .ok l) :
    ∃ df, experimentsPipe st dc et bn tg pid top b4 af = .ok df ∧
      parseSort "start_datetime" "start_datetime:desc" sb = .ok (ascOf sb) ∧
      l = takeOpt lim (sortRecs "start_time" (ascOf sb) df) := by
  unfold experiments at h
  cases h1 : experimentsPipe st dc et bn tg pid top b4 af with
  | error e => rw [h1] at h; exact absurd h (by simp [Bind.bind, Except.bind])
  | ok df =>
    rw [h1] at h
    cases h2 : parseSort "start_datetime" "start_datetime:desc" sb with
    | error e =>
      rw [h2] at h
      exact absurd h (by simp [Bind.bind, Except.bind])
    | ok b =>
      have hb : b = ascOf sb := parseSort_asc
        (show sSplit ':' "start_datetime:desc" = ["start_datetime", "desc"] from rfl) h2
      subst hb
      rw [h2] at h
      simp only [Bind.bind, Except.bind, Except.ok.injEq] at h
      exact ⟨df, rfl, rfl, h.symm⟩

theorem analysisResults_ok_shape {st : ClientState} {lim : Option Nat}
    {mk bn : Option String} {dc : Option (List String)} {eu rt q : Option String}
    {v : Option Bool} {tg : Option String} {ca : Option Value}
    {sb : Option (List String)} {l : List Rec}
    (h : analysisResults st lim mk bn dc eu rt q v tg ca sb = .ok l) :
    ∃ df, analysisResultsPipe st bn eu rt q v tg = .ok df ∧
      parseSort "creation_datetime" "creation_datetime:desc" sb = .ok (ascOf sb) ∧
      l = takeOpt lim (sortRecs "created_at" (ascOf sb) df) := by
  unfold analysisResults at h
  cases h1 : analysisResultsPipe st bn eu rt q v tg with
  | error e => rw [h1] at h; exact absurd h (by simp [Bind.bind, Except.bind])
  | ok df =>
    rw [h1] at h
    cases h2 : parseSort "creation_datetime" "creation_datetime:desc" sb with
    | error e =>
      rw [h2] at h
      exact absurd h (by simp [Bind.bind, Except.bind])
    | ok b =>
      have hb : b = ascOf sb := parseSort_asc
        (show sSplit ':' "creation_datetime:desc" = ["creation_datetime", "desc"] from rfl) h2
      subst hb
      rw [h2] at h
      simp only [Bind.bind, Except.bind, Except.ok.injEq] at h
      exact ⟨df, rfl, rfl, h.symm⟩

/-! ## Claim C3 -/

/-- Claim C3: every successful list call on either collection returns a
sequence sorted by the collection's timestamp field — descending when no
sort specification is given, ascending or descending as requested by a
valid `field:asc` / `field:desc` token — with ties broken by ascending
record identifier (`rowLE` is exactly this order, `ascOf` the requested
direction).  Identical calls over identical data trivially coincide, the
query being a pure function of the state and arguments. -/
theorem claim_c3_sort_order :
    (∀ st lim dc et bn tg pid top b4 af sb l,
        experiments st lim dc et bn tg pid top b4 af sb = .ok l →
        List.Sorted (fun r s => rowLE "start_time" (ascOf sb) r s = true) l) ∧
    (∀ st lim mk bn dc eu rt q v tg ca sb l,
        analysisResults st lim mk bn dc eu rt q v tg ca sb = .ok l →
        List.Sorted (fun r s => rowLE "created_at" (ascOf sb) r s = true) l) := by
  constructor
  · intro st lim dc et bn tg pid top b4 af sb l h
    obtain ⟨df, _, _, h3⟩ := experiments_ok_shape h
    subst h3
    exact List.Pairwise.sublist (takeOpt_sublist lim _) (sortRecs_sorted _ _ df)
  · intro st lim mk bn dc eu rt q v tg ca sb l h
    obtain ⟨df, _, _, h3⟩ := analysisResults_ok_shape h
    subst h3
    exact List.Pairwise.sublist (takeOpt_sublist lim _) (sortRecs_sorted _ _ df)

/-- Witness for C3 at a concrete store: a default (descending) experiment
list and a default analysis-result list of `wSt3` come out sorted. -/
theorem claim_c3_sort_order_witness :
    List.Sorted (fun r s => rowLE "start_time" (ascOf none) r s = true)
      (exOk (experiments wSt3 none none none none none none "OR" none none none)) ∧
    List.Sorted (fun r s => rowLE "created_at" (ascOf none) r s = true)
      (exOk (analysisResults wSt3 none none none none none none none none none none none)) :=
  ⟨claim_c3_sort_order.1 wSt3 none none none none none none "OR" none none none _ rfl,
   claim_c3_sort_order.2 wSt3 none none none none none none none none none none none _ rfl⟩

/-! ## Claim C5 -/

/-- Counterexample to C5 as stated: the claim says a call that omits the
`limit` argument entirely returns the full sorted sequence, but the Python
signature of `experiments` defaults an omitted `limit` to `10`: over a
store of eleven records, the call returns ten. -/
theorem claim_c5_counterexample :
    (experimentsDefaultLimit wMany none none none none none "OR" none none none).map
        List.length = .ok 10 ∧
    wMany.experiments.length = 11 := by
  constructor
  · rfl
  · rfl

/-- Claim C5 (amended): with `limit` `N` the result is the first
`min(N, length)` entries of the sorted sequence — a prefix, never more than
`N`, empty for `N = 0`; passing `limit=None` returns the full sorted
sequence; but a call on `experiments` that omits the argument entirely gets
the default `limit=10` rather than "no truncation" (`analysis_results` has
no default: its caller must always pass a limit). -/
theorem claim_c5_limit_semantics :
    (∀ st dc et bn tg pid top b4 af sb n l,
        experiments st none dc et bn tg pid top b4 af sb = .ok l →
        experiments st (some n) dc et bn tg pid top b4 af sb = .ok (l.take n) ∧
        (l.take n).length = min n l.length ∧ l.take n <+: l) ∧
    (∀ st mk bn dc eu rt q v tg ca sb n l,
        analysisResults st none mk bn dc eu rt q v tg ca sb = .ok l →
        analysisResults st (some n) mk bn dc eu rt q v tg ca sb = .ok (l.take n) ∧
        (l.take n).length = min n l.length ∧ l.take n <+: l) ∧
    (∀ st dc et bn tg pid top b4 af sb,
        experimentsDefaultLimit st dc et bn tg pid top b4 af sb =
          experiments st (some 10) dc et bn tg pid top b4 af sb) := by
  refine ⟨?_, ?_, ?_⟩
  · intro st dc et bn tg pid top b4 af sb n l h
    obtain ⟨df, h1, h2, h3⟩ := experiments_ok_shape h
    refine ⟨?_, by simp [List.length_take], List.take_prefix n l⟩
    unfold experiments
    rw [h1, h2]
    simp only [Bind.bind, Except.bind, Except.ok.injEq]
    rw [h3]
    rfl
  · intro st mk bn dc eu rt q v tg ca sb n l h
    obtain ⟨df, h1, h2, h3⟩ := analysisResults_ok_shape h
    refine ⟨?_, by simp [List.length_take], List.take_prefix n l⟩
    unfold analysisResults
    rw [h1, h2]
    simp only [Bind.bind, Except.bind, Except.ok.injEq]
    rw [h3]
    rfl
  · intro st dc et bn tg pid top b4 af sb
    rfl

/-- Witness for the amended C5 at a concrete store: `limit=1` over `wSt2`
returns exactly the first entry of the unlimited sorted sequence. -/
theorem claim_c5_limit_semantics_witness :
    experiments wSt2 (some 1) none none none none none "OR" none none none =
      .ok ((exOk (experiments wSt2 none none none none none none "OR" none none none)).take 1) ∧
    ((exOk (experiments wSt2 none none none none none none "OR" none none none)).take 1).length =
      min 1 (exOk (experiments wSt2 none none none none none none "OR" none none none)).length ∧
    (exOk (experiments wSt2 none none none none none none "OR" none none none)).take 1 <+:
      exOk (experiments wSt2 none none none none none none "OR" none none none) :=
  claim_c5_limit_semantics.1 wSt2 none none none none none "OR" none none none 1 _ rfl

/-! ## Claim C6 -/

/-- Counterexample to C6 as stated: the claim says a `"like:" ++ s` filter
returns exactly the records whose type contains `s` as a substring; but the
code takes `split(":")[1]`, so for `s = "a:b"` only `"a"` is matched:
the record of type `"xay"` is returned although `"a:b"` is not a substring
of `"xay"`. -/
theorem claim_c6_counterexample :
    (exOk (experiments wSt1 none none (some "like:a:b") none none none "OR" none none none)).map
        (fun r => getF r "type") = [.str "xay"] ∧
    isSubstr "a:b" "xay" = false := by
  constructor
  · rfl
  · rfl

/-- Claim C6 (amended): a type filter of the form `"like:" ++ s` keeps
exactly the records whose string-typed type field contains, as a substring,
the segment of the filter value between the first and second `":"`
(everything after a second colon is ignored) — for patterns free of regex
metacharacters, which is what the embedding's `isSubstr` models; a filter
value without the `"like:"` prefix keeps exactly the records whose type
field equals it.  This holds on both collections. -/
theorem claim_c6_like_semantics :
    (∀ st t l, sTake t 5 = "like:" →
       experiments st none none (some t) none none none "OR" none none none = .ok l →
       ∀ r, r ∈ l ↔ r ∈ st.experiments ∧
         likeMatches ((sSplit ':' t).getD 1 "") r = true) ∧
    (∀ st t l, sTake t 5 ≠ "like:" →
       experiments st none none (some t) none none none "OR" none none none = .ok l →
       ∀ r, r ∈ l ↔ r ∈ st.experiments ∧ peq (getF r "type") (.str t) = true) ∧
    (∀ st t l, sTake t 5 = "like:" →
       analysisResults st none none none none none (some t) none none none none none = .ok l →
       ∀ r, r ∈ l ↔ r ∈ st.results ∧
         likeMatches ((sSplit ':' t).getD 1 "") r = true) ∧
    (∀ st t l, sTake t 5 ≠ "like:" →
       analysisResults st none none none none none (some t) none none none none none = .ok l →
       ∀ r, r ∈ l ↔ r ∈ st.results ∧ peq (getF r "type") (.str t) = true) := by
  have hexp : ∀ st t, experimentsPipe st none (some t) none none none "OR" none none =
      .ok (typeFilter (some t) st.experiments) := fun _ _ => rfl
  have hres : ∀ st t, analysisResultsPipe st none none (some t) none none none =
      .ok (typeFilter (some t) st.results) := fun _ _ => rfl
  refine ⟨?_, ?_, ?_, ?_⟩
  · intro st t l hlike h r
    obtain ⟨df, h1, _, h3⟩ := experiments_ok_shape h
    rw [hexp st t] at h1
    injection h1 with h1
    subst h1 h3
    rw [takeOpt, List.Perm.mem_iff (sortRecs_perm _ _ _)]
    simp [typeFilter, hlike, List.mem_filter]
  · intro st t l hlike h r
    obtain ⟨df, h1, _, h3⟩ := experiments_ok_shape h
    rw [hexp st t] at h1
    injection h1 with h1
    subst h1 h3
    rw [takeOpt, List.Perm.mem_iff (sortRecs_perm _ _ _)]
    simp [typeFilter, hlike, List.mem_filter]
  · intro st t l hlike h r
    obtain ⟨df, h1, _, h3⟩ := analysisResults_ok_shape h
    rw [hres st t] at h1
    injection h1 with h1
    subst h1 h3
    rw [takeOpt, List.Perm.mem_iff (sortRecs_perm _ _ _)]
    simp [typeFilter, hlike, List.mem_filter]
  · intro st t l hlike h r
    obtain ⟨df, h1, _, h3⟩ := analysisResults_ok_shape h
    rw [hres st t] at h1
    injection h1 with h1
    subst h1 h3
    rw [takeOpt, List.Perm.mem_iff (sortRecs_perm _ _ _)]
    simp [typeFilter, hlike, List.mem_filter]

/-- Witness for the amended C6: over `wSt2`, the filter `"like:a"` keeps
exactly the record whose type contains `"a"`, and the exact filter
`"other"` keeps exactly the record typed `"other"`. -/
theorem claim_c6_like_semantics_witness :
    (∀ r, r ∈ exOk (experiments wSt2 none none (some "like:a") none none none "OR" none none none) ↔
       r ∈ wSt2.experiments ∧ likeMatches ((sSplit ':' "like:a").getD 1 "") r = true) ∧
    (∀ r, r ∈ exOk (experiments wSt2 none none (some "other") none none none "OR" none none none) ↔
       r ∈ wSt2.experiments ∧ peq (getF r "type") (.str "other") = true) :=
  ⟨claim_c6_like_semantics.1 wSt2 "like:a" _ rfl rfl,
   claim_c6_like_semantics.2.1 wSt2 "other" _ (by decide) rfl⟩

/-! ## Claim C9 -/

/-- Counterexample to C9 as stated: the claim says a non-null
`device_components` filter fails with `InvalidArgument` on either
collection, but `analysis_results` accepts and silently ignores it. -/
theorem claim_c9_counterexample :
    analysisResults initState none none none (some ["x"]) none none none none
      none none none = .ok [] := rfl

/-- Claim C9 (amended): `experiments` fails with `ValueError` on every call
that passes a non-null `device_components` (whatever the other arguments),
while `analysis_results` ignores the argument entirely: its result is
identical with or without it. -/
theorem claim_c9_device_components :
    (∀ st lim dc et bn tg pid top b4 af sb d, dc = some d →
        experiments st lim dc et bn tg pid top b4 af sb = .error .valueError) ∧
    (∀ st lim mk bn dc eu rt q v tg ca sb,
        analysisResults st lim mk bn dc eu rt q v tg ca sb =
          analysisResults st lim mk bn none eu rt q v tg ca sb) := by
  constructor
  · intro st lim dc et bn tg pid top b4 af sb d hdc
    subst hdc
    rfl
  · intro st lim mk bn dc eu rt q v tg ca sb
    rfl

/-- Witness for C9: a concrete `experiments` call with a device-component
filter fails with `ValueError`. -/
theorem claim_c9_device_components_witness :
    experiments wSt2 none (some ["c1"]) none none none none "OR" none none none =
      .error .valueError :=
  claim_c9_device_components.1 wSt2 none (some ["c1"]) none none none none "OR"
    none none none ["c1"] rfl

/-! ## Row and save helper lemmas -/

theorem alookup_map_keys (cols : List String) (f : String → Value) (k : String) :
    alookup (cols.map (fun c => (c, f c))) k = if k ∈ cols then some (f k) else none := by
  induction cols with
  | nil => simp [alookup]
  | cons c t ih =>
    by_cases h : k = c
    · subst h
      simp [alookup_cons]
    · simp [alookup_cons, h, ih]

theorem getF_mkRow (cols : List String) (payload : Rec) (k : String) :
    getF (mkRow cols payload) k = if k ∈ cols then getF payload k else .null := by
  unfold getF mkRow
  rw [alookup_map_keys cols (fun c => getF payload c) k]
  by_cases h : k ∈ cols <;> simp [h, getF]

theorem getF_setF (r : Rec) (k : String) (v : Value) (k' : String) :
    getF (setF r k v) k' = if k' = k then v else getF r k' := by
  unfold getF setF
  rw [alookup_aset]
  by_cases h : k' = k <;> simp [h]

theorem hasKey_setF (r : Rec) (k : String) (v : Value) (k' : String) :
    hasKey (setF r k v) k' = if k' = k then true else hasKey r k' := by
  unfold hasKey setF
  rw [alookup_aset]
  by_cases h : k' = k <;> simp [h]

theorem save_experiments (s : ClientState) : (save s).experiments = s.experiments := by
  unfold save
  split <;> rfl

theorem save_results (s : ClientState) : (save s).results = s.results := by
  unfold save
  split <;> rfl

theorem save_figures (s : ClientState) : (save s).figures = s.figures := by
  unfold save
  split <;> rfl

theorem save_localSave (s : ClientState) : (save s).localSave = s.localSave := by
  unfold save
  split <;> rfl

/-! ## Claim C8 -/

/-- Claim C8: `analysis_result_create` fails (with the no-status
`RequestsApiError`, the spec's `InvalidArgument`) when the payload carries
no `experiment_uuid` — or a null one — and fails with 404 (`NotFound`) when
the referenced experiment does not exist, leaving the whole state unchanged
in both cases; on success it appends exactly one row whose `device_name` is
copied from the referenced experiment at that moment and whose `uuid` is
the freshly generated identifier whenever the payload supplied none; and a
later `experiment_update` never touches the stored results (the copied
device name is a snapshot). -/
theorem claim_c8_result_create :
    (∀ st payload fid, alookup payload "experiment_uuid" = none →
        analysis_result_create st payload fid = (st, .error (.requestsApi none))) ∧
    (∀ st payload fid, alookup payload "experiment_uuid" = some .null →
        analysis_result_create st payload fid = (st, .error (.requestsApi none))) ∧
    (∀ st payload fid v, alookup payload "experiment_uuid" = some v → v ≠ .null →
        st.experiments.find? (fun r => peq (getF r "uuid") v) = none →
        analysis_result_create st payload fid = (st, .error (.requestsApi (some 404)))) ∧
    (∀ st payload fid v exp, alookup payload "experiment_uuid" = some v → v ≠ .null →
        st.experiments.find? (fun r => peq (getF r "uuid") v) = some exp →
        ∃ row, (analysis_result_create st payload fid).1.results = st.results ++ [row] ∧
          (analysis_result_create st payload fid).1.experiments = st.experiments ∧
          getF row "device_name" = getF exp "device_name" ∧
          (hasKey payload "uuid" = false → getF row "uuid" = .str fid)) ∧
    (∀ st id up, ((experiment_update st id up).1).results = st.results) := by
  refine ⟨?_, ?_, ?_, ?_, ?_⟩
  · intro st payload fid h
    unfold analysis_result_create
    rw [h]
  · intro st payload fid h
    unfold analysis_result_create
    rw [h]
  · intro st payload fid v h hv hfind
    unfold analysis_result_create
    rw [h]
    cases v with
    | null => exact absurd rfl hv
    | bool b => simp only [hfind]
    | int n => simp only [hfind]
    | str s => simp only [hfind]
    | arr l => simp only [hfind]
  · intro st payload fid v exp h hv hfind
    have hred : analysis_result_create st payload fid =
        (let data := setF payload "device_name" (getF exp "device_name")
         let data2 := if hasKey data "uuid" then data else setF data "uuid" (.str fid)
         (save { st with results := st.results ++ [mkRow results_db_columns data2] },
          (Except.ok data2 : Except ApiErr Rec))) := by
      unfold analysis_result_create
      rw [h]
      cases v with
      | null => exact absurd rfl hv
      | bool b => simp only [hfind]
      | int n => simp only [hfind]
      | str s => simp only [hfind]
      | arr l => simp only [hfind]
    rw [hred]
    by_cases hk : hasKey (setF payload "device_name" (getF exp "device_name")) "uuid" = true
    · refine ⟨mkRow results_db_columns
          (setF payload "device_name" (getF exp "device_name")), ?_, ?_, ?_, ?_⟩
      · show (save _).results = _
        simp only [hk, if_true]
        rw [save_results]
      · show (save _).experiments = _
        simp only [hk, if_true]
        rw [save_experiments]
      · rw [getF_mkRow, if_pos (by decide), getF_setF, if_pos rfl]
      · intro hfalse
        rw [hasKey_setF, if_neg (by decide)] at hk
        rw [hfalse] at hk
        exact Bool.noConfusion hk
    · have hk' : hasKey (setF payload "device_name" (getF exp "device_name")) "uuid" = false := by
        cases hval : hasKey (setF payload "device_name" (getF exp "device_name")) "uuid"
        · rfl
        · exact absurd hval hk
      refine ⟨mkRow results_db_columns
          (setF (setF payload "device_name" (getF exp "device_name")) "uuid" (.str fid)),
          ?_, ?_, ?_, ?_⟩
      · show (save _).results = _
        simp only [hk', Bool.false_eq_true, if_false]
        rw [save_results]
      · show (save _).experiments = _
        simp only [hk', Bool.false_eq_true, if_false]
        rw [save_experiments]
      · rw [getF_mkRow, if_pos (by decide), getF_setF, if_neg (by decide),
          getF_setF, if_pos rfl]
      · intro _
        rw [getF_mkRow, if_pos (by decide), getF_setF, if_pos rfl]
  · intro st id up
    unfold experiment_update
    cases h1 : updateFirst (fun r => peq (getF r "uuid") (.str id))
        (fun r => up.foldl (fun row q => setF row q.1 q.2) r) st.experiments with
    | none => rfl
    | some exps =>
      cases h2 : List.find? (fun r => peq (getF r "uuid") (Value.str id))
          (save { st with experiments := exps }).experiments with
      | none =>
        simp only [h2, save_results]
      | some r =>
        simp only [h2, save_results]

/-- Witness for C8 at concrete inputs: a payload without `experiment_uuid`
is rejected with the no-status error, one referencing a missing experiment
is rejected with 404 (state untouched), and a successful create on `e1`
appends one row carrying `e1`'s device name and the generated uuid. -/
theorem claim_c8_result_create_witness :
    analysis_result_create wSt2 [("type", .str "T")] "r9" =
      (wSt2, .error (.requestsApi none)) ∧
    analysis_result_create wSt2 [("experiment_uuid", .str "zz")] "r9" =
      (wSt2, .error (.requestsApi (some 404))) ∧
    (∃ row,
      (analysis_result_create wSt2 [("experiment_uuid", .str "e1")] "r9").1.results =
        wSt2.results ++ [row] ∧
      (analysis_result_create wSt2 [("experiment_uuid", .str "e1")] "r9").1.experiments =
        wSt2.experiments ∧
      getF row "device_name" = getF wSt2.experiments.headI "device_name" ∧
      (hasKey [("experiment_uuid", Value.str "e1")] "uuid" = false →
        getF row "uuid" = .str "r9")) :=
  ⟨claim_c8_result_create.1 wSt2 [("type", .str "T")] "r9" rfl,
   claim_c8_result_create.2.2.1 wSt2 [("experiment_uuid", .str "zz")] "r9"
     (Value.str "zz") rfl (by decide) rfl,
   claim_c8_result_create.2.2.2.1 wSt2 [("experiment_uuid", .str "e1")] "r9"
     (Value.str "e1") wSt2.experiments.headI rfl (by decide) rfl⟩

/-! ## Claim C7 -/

theorem updateFirst_map (g : Rec → Value) {p : Rec → Bool} {f : Rec → Rec}
    (hg : ∀ r, g (f r) = g r) :
    ∀ {l l' : List Rec}, updateFirst p f l = some l' → l'.map g = l.map g := by
  intro l
  induction l with
  | nil => intro l' h; simp [updateFirst] at h
  | cons r t ih =>
    intro l' h
    unfold updateFirst at h
    by_cases hp : p r = true
    · rw [if_pos hp] at h
      injection h with h
      subst h
      simp [hg]
    · rw [if_neg hp] at h
      cases hu : updateFirst p f t with
      | none => rw [hu] at h; simp at h
      | some t' =>
        rw [hu] at h
        simp at h
        subst h
        simp [ih hu]

theorem getF_foldl_setF (up : Rec) (k : String) :
    ∀ r : Rec, k ∉ akeys up →
      getF (up.foldl (fun row q => setF row q.1 q.2) r) k = getF r k := by
  induction up with
  | nil => intro r _; rfl
  | cons q t ih =>
    intro r hk
    rw [akeys_cons, List.mem_cons] at hk
    push_neg at hk
    rw [List.foldl_cons, ih _ hk.2, getF_setF, if_neg hk.1]

theorem analysis_result_create_experiments (st : ClientState) (p : Rec) (fid : String) :
    (analysis_result_create st p fid).1.experiments = st.experiments := by
  unfold analysis_result_create
  split
  · rfl
  · rfl
  · split
    · rfl
    · rw [save_experiments]

theorem analysis_result_update_experiments (st : ClientState) (id : String) (up : Rec) :
    (analysis_result_update st id up).1.experiments = st.experiments := by
  unfold analysis_result_update
  cases h1 : updateFirst (fun r => peq (getF r "uuid") (.str id))
      (fun r => up.foldl (fun row q => setF row q.1 q.2) r) st.results with
  | none => rfl
  | some ress =>
    simp only [save_results]
    cases h2 : List.find? (fun r => peq (getF r "uuid") (Value.str id)) ress with
    | none => simp only [h2, save_experiments]
    | some r => simp only [h2, save_experiments]

theorem analysis_result_delete_experiments (st : ClientState) (id : String) :
    (analysis_result_delete st id).1.experiments = st.experiments := by
  unfold analysis_result_delete
  split
  · rfl
  · rw [save_experiments]

theorem experiment_plot_upload_experiments (st : ClientState) (e c n : String) :
    (experiment_plot_upload st e c n).1.experiments = st.experiments := by
  unfold experiment_plot_upload
  cases h1 : alookup st.figures (Value.str e) with
  | some inner0 =>
    simp only [h1, Option.getD]
    cases h2 : alookup inner0 n with
    | some b => simp only [h2]
    | none => simp only [h2, save_experiments]
  | none =>
    have hf : alookup (st.figures ++ [(Value.str e, [])]) (Value.str e) = some [] := by
      rw [alookup_append, h1]
      simp [ofirst, alookup]
    simp only [h1, hf, Option.getD]
    simp only [alookup, save_experiments]

theorem experiment_plot_update_experiments (st : ClientState) (e c n : String) :
    (experiment_plot_update st e c n).1.experiments = st.experiments := by
  unfold experiment_plot_update
  cases h1 : alookup st.figures (Value.str e) with
  | none => rfl
  | some inner =>
    simp only [h1]
    cases h2 : alookup inner n with
    | none => simp only [h2]
    | some b => simp only [h2, save_experiments]

theorem experiment_plot_delete_experiments (st : ClientState) (e n : String) :
    (experiment_plot_delete st e n).1.experiments = st.experiments := by
  unfold experiment_plot_delete
  cases h1 : alookup st.figures (Value.str e) with
  | none => rfl
  | some inner =>
    simp only [h1]
    cases h2 : alookup inner n with
    | none => simp only [h2]
    | some b => simp only [h2]

/-- Counterexample to C7 as stated: an `experiment_update` whose payload
contains a `uuid` key rewrites the identifier of the stored record, and
`analysis_result_create` performs no duplicate check at all, so supplying
the same result uuid twice stores two records with equal identifiers. -/
theorem claim_c7_counterexample :
    (experiment_update wSt1 "e1" [("uuid", Value.str "e9")]).1.experiments.map
        (fun r => getF r "uuid") = [.str "e9"] ∧
    wSt1.experiments.map (fun r => getF r "uuid") = [.str "e1"] ∧
    (analysis_result_create
        ((analysis_result_create wSt2
            [("experiment_uuid", .str "e1"), ("uuid", .str "r1")] "x").1)
        [("experiment_uuid", .str "e1"), ("uuid", .str "r1")] "y").1.results.map
        (fun r => getF r "uuid") = [.str "r1", .str "r1"] :=
  ⟨rfl, rfl, rfl⟩

/-- Claim C7 (amended): in the experiment collection, uploading a record
whose (non-null) identifier collides with a stored one fails with
`AlreadyExists` and leaves the whole state unchanged; an update whose
payload does not mention `uuid` preserves every record's identifier; and
along any operation sequence whose experiment updates never carry a `uuid`
key and whose uploads never carry a null `uuid` (`Op.uuidSafe`), the stored
experiment identifiers remain non-null and pairwise distinct.  (The
analysis-result collection enforces none of this: its create has no
duplicate check, and its update can likewise rewrite `uuid`.) -/
theorem claim_c7_uuid_invariant :
    (∀ st data fid, hasKey data "uuid" = true →
        st.experiments.any (fun r => peq (getF r "uuid") (getF data "uuid")) = true →
        experiment_upload st data fid = (st, .error .entryExists)) ∧
    (∀ st id up, hasKey up "uuid" = false →
        (experiment_update st id up).1.experiments.map (fun r => getF r "uuid") =
          st.experiments.map (fun r => getF r "uuid")) ∧
    (∀ ops, ops.all Op.uuidSafe = true →
        ((applyOps ops).experiments.map (fun r => getF r "uuid")).Nodup ∧
        ∀ r ∈ (applyOps ops).experiments, getF r "uuid" ≠ .null) := by
  have hupd : ∀ st id up, hasKey up "uuid" = false →
      (experiment_update st id up).1.experiments.map (fun r => getF r "uuid") =
        st.experiments.map (fun r => getF r "uuid") := by
    intro st id up hk
    have hnk : "uuid" ∉ akeys up := by
      rw [← alookup_isSome_iff_mem]
      unfold hasKey at hk
      rw [hk]
      simp
    unfold experiment_update
    cases h1 : updateFirst (fun r => peq (getF r "uuid") (.str id))
        (fun r => up.foldl (fun row q => setF row q.1 q.2) r) st.experiments with
    | none => rfl
    | some exps =>
      have hmap : exps.map (fun r => getF r "uuid") =
          st.experiments.map (fun r => getF r "uuid") :=
        updateFirst_map _ (fun r => getF_foldl_setF up "uuid" r hnk) h1
      simp only [save_experiments]
      cases h2 : List.find? (fun r => peq (getF r "uuid") (Value.str id)) exps with
      | none => simp only [h2, save_experiments]; exact hmap
      | some r => simp only [h2, save_experiments]; exact hmap
  refine ⟨?_, hupd, ?_⟩
  · intro st data fid hk hany
    unfold experiment_upload
    simp only [hk, if_true, hany]
  · intro ops hsafe
    have step : ∀ st op, op.uuidSafe = true →
        ((st.experiments.map (fun r => getF r "uuid")).Nodup ∧
          ∀ r ∈ st.experiments, getF r "uuid" ≠ .null) →
        (((applyOp st op).experiments.map (fun r => getF r "uuid")).Nodup ∧
          ∀ r ∈ (applyOp st op).experiments, getF r "uuid" ≠ .null) := by
      intro st op hop hinv
      obtain ⟨hnd, hnn⟩ := hinv
      cases op with
      | expUpload payload fid =>
        simp only [applyOp]
        unfold experiment_upload
        have hu : getF (if hasKey payload "uuid" then payload
            else setF payload "uuid" (.str fid)) "uuid" ≠ .null := by
          by_cases hk : hasKey payload "uuid" = true
          · rw [if_pos hk]
            simp only [Op.uuidSafe, hk, Bool.not_true, Bool.false_or,
              Bool.not_eq_true', beq_eq_false_iff_ne, ne_eq] at hop
            exact hop
          · rw [if_neg hk, getF_setF, if_pos rfl]
            simp
        cases hany : (st.experiments.any (fun r => peq (getF r "uuid")
            (getF (if hasKey payload "uuid" then payload
              else setF payload "uuid" (.str fid)) "uuid"))) with
        | true =>
          simp only [hany, if_true]
          exact ⟨hnd, hnn⟩
        | false =>
          simp only [hany, Bool.false_eq_true, if_false]
          rw [save_experiments]
          constructor
          · rw [List.map_append]
            simp only [List.map_cons, List.map_nil]
            rw [List.nodup_append]
            refine ⟨hnd, List.nodup_singleton _, ?_⟩
            intro a ha
            simp only [List.mem_singleton]
            intro hb
            subst hb
            rw [List.mem_map] at ha
            obtain ⟨r, hr, hru⟩ := ha
            rw [List.any_eq_false] at hany
            have hpeq := hany r hr
            rw [getF_mkRow, if_pos (by decide)] at hru
            unfold peq at hpeq
            rw [if_neg (by
              push_neg
              exact ⟨hnn r hr, hu⟩)] at hpeq
            simp only [decide_eq_true_eq] at hpeq
            exact absurd hru hpeq
          · intro r hr
            rw [List.mem_append] at hr
            rcases hr with hr | hr
            · exact hnn r hr
            · rw [List.mem_singleton] at hr
              subst hr
              rw [getF_mkRow, if_pos (by decide)]
              exact hu
      | expUpdate id payload =>
        simp only [applyOp]
        have hk : hasKey payload "uuid" = false := by
          simp only [Op.uuidSafe, Bool.not_eq_true'] at hop
          exact hop
        have hmap := hupd st id payload hk
        constructor
        · rw [hmap]; exact hnd
        · intro r hr
          have : getF r "uuid" ∈ (experiment_update st id payload).1.experiments.map
              (fun r => getF r "uuid") := List.mem_map.mpr ⟨r, hr, rfl⟩
          rw [hmap, List.mem_map] at this
          obtain ⟨s, hs, hsu⟩ := this
          rw [← hsu]
          exact hnn s hs
      | expDelete id =>
        simp only [applyOp]
        unfold experiment_delete
        cases h1 : List.find? (fun r => peq (getF r "uuid") (Value.str id))
            st.experiments with
        | none => exact ⟨hnd, hnn⟩
        | some r =>
          simp only [h1]
          rw [save_experiments]
          constructor
          · exact List.Nodup.sublist
              (List.Sublist.map _ (List.filter_sublist st.experiments)) hnd
          · intro s hs
            exact hnn s (List.mem_of_mem_filter hs)
      | resCreate payload fid =>
        simp only [applyOp]
        rw [analysis_result_create_experiments]
        exact ⟨hnd, hnn⟩
      | resUpdate id payload =>
        simp only [applyOp]
        rw [analysis_result_update_experiments]
        exact ⟨hnd, hnn⟩
      | resDelete id =>
        simp only [applyOp]
        rw [analysis_result_delete_experiments]
        exact ⟨hnd, hnn⟩
      | plotUpload e n c =>
        simp only [applyOp]
        rw [experiment_plot_upload_experiments]
        exact ⟨hnd, hnn⟩
      | plotUpdate e n c =>
        simp only [applyOp]
        rw [experiment_plot_update_experiments]
        exact ⟨hnd, hnn⟩
      | plotDelete e n =>
        simp only [applyOp]
        rw [experiment_plot_delete_experiments]
        exact ⟨hnd, hnn⟩
    have main : ∀ (l : List Op) (st : ClientState), l.all Op.uuidSafe = true →
        ((st.experiments.map (fun r => getF r "uuid")).Nodup ∧
          ∀ r ∈ st.experiments, getF r "uuid" ≠ .null) →
        (((l.foldl applyOp st).experiments.map (fun r => getF r "uuid")).Nodup ∧
          ∀ r ∈ (l.foldl applyOp st).experiments, getF r "uuid" ≠ .null) := by
      intro l
      induction l with
      | nil => intro st _ hinv; exact hinv
      | cons op t ih =>
        intro st hall hinv
        rw [List.all_cons, Bool.and_eq_true] at hall
        exact ih _ hall.2 (step st op hall.1 hinv)
    exact main ops initState hsafe ⟨by simp [initState, init_db, save], by simp [initState, init_db, save]⟩

/-- Witness for the amended C7: uploading a second experiment with uuid
`e1` into `wSt1` fails with `AlreadyExists` leaving the state unchanged; a
uuid-free update keeps the identifier; and after the two `uuidSafe` uploads
that build `wSt2` the identifiers are distinct and non-null. -/
theorem claim_c7_uuid_invariant_witness :
    experiment_upload wSt1 [("uuid", Value.str "e1")] "f9" =
      (wSt1, .error .entryExists) ∧
    (experiment_update wSt1 "e1" [("notes", Value.str "n")]).1.experiments.map
        (fun r => getF r "uuid") =
      wSt1.experiments.map (fun r => getF r "uuid") ∧
    (((applyOps
        [Op.expUpload [("uuid", .str "e1"), ("start_time", .int 5)] "f1",
         Op.expUpload [("uuid", .str "e2"), ("start_time", .int 7)] "f2"]).experiments.map
        (fun r => getF r "uuid")).Nodup ∧
      ∀ r ∈ (applyOps
        [Op.expUpload [("uuid", .str "e1"), ("start_time", .int 5)] "f1",
         Op.expUpload [("uuid", .str "e2"), ("start_time", .int 7)] "f2"]).experiments,
        getF r "uuid" ≠ .null) :=
  ⟨claim_c7_uuid_invariant.1 wSt1 [("uuid", Value.str "e1")] "f9" rfl rfl,
   claim_c7_uuid_invariant.2.1 wSt1 "e1" [("notes", Value.str "n")] rfl,
   claim_c7_uuid_invariant.2.2
     [Op.expUpload [("uuid", .str "e1"), ("start_time", .int 5)] "f1",
      Op.expUpload [("uuid", .str "e2"), ("start_time", .int 7)] "f2"] rfl⟩

/-! ## Claim C4 -/

/-- Claim C4, evaluated at the failing input: `analysis_results` splits the
tag argument on `":"`, so the operator segment can never contain a colon,
yet the OR branch compares it against the literal `"any:"` — the branch its
own comment labels "OR operator" is unreachable, and the OR query
`tags="any:a"` raises `ValueError` instead of filtering.  The sibling
conjuncts show the machinery itself is sound: the operator segment of
`"any:a"` is `"any"`, the `AND` operator does filter (both stored results
carry tag `"a"`), and on the experiments collection the `OR` operator
selects exactly the record containing a requested tag. -/
theorem claim_c4_or_dead_branch :
    analysisResults wSt3 none none none none none none none none
        (some "any:a") none none = .error .valueError ∧
    (sSplit ':' "any:a").getD 0 "" = "any" ∧
    (exOk (analysisResults wSt3 none none none none none none none none
        (some "AND:a") none none)).length = 2 ∧
    (exOk (experiments wSt3 none none none none (some ["a"]) none "OR"
        none none none)).map (fun r => getF r "uuid") = [.str "e1"] :=
  ⟨rfl, rfl, rfl, rfl⟩

/-! ## Claim C10 -/

/-- Claim C10, evaluated at the failing input: when an experiment
identifier has no blob entry at all, `experiment_plot_get` /
`experiment_plot_update` / `experiment_plot_delete` raise an uncaught
`KeyError` from `self._figures[experiment_id]` instead of the documented
`RequestsApiError` 404 (`wSt1` stores no figures).  The remaining conjuncts
confirm the documented semantics once the key structure exists (`wPlot`
stores figure `p` of `e1`): get of a missing name is 404, re-upload of an
existing name is 409 Conflict, and get of a present name returns the
stored bytes. -/
theorem claim_c10_blob_semantics :
    experiment_plot_get wSt1 "e1" "p" = .error .keyError ∧
    experiment_plot_update wSt1 "e1" "B" "p" = (wSt1, .error .keyError) ∧
    experiment_plot_delete wSt1 "e1" "p" = (wSt1, .error .keyError) ∧
    experiment_plot_get wPlot "e1" "q" = .error (.requestsApi (some 404)) ∧
    (experiment_plot_upload wPlot "e1" "C" "p").2 = .error (.requestsApi (some 409)) ∧
    experiment_plot_get wPlot "e1" "p" = .ok "BYTES" :=
  ⟨rfl, rfl, rfl, rfl, rfl, rfl⟩

/-! ## Claim C1 -/

/-- Claim C1, evaluated at the failing input: `experiment_plot_delete` is
the one mutation that never calls `save` — deleting the only plot of
`wPlot` leaves the durable state byte-for-byte unchanged, so the deleted
plot is gone from memory but still present in the figure directory, and
the durable copy no longer equals the in-memory state.  (The last two
conjuncts show the upload that built `wPlot` did flush, so the divergence
is introduced by the delete.) -/
theorem claim_c1_plot_delete_skips_flush :
    (experiment_plot_delete wPlot "e1" "p").1.disk = wPlot.disk ∧
    flatLookup (experiment_plot_delete wPlot "e1" "p").1.figures (.str "e1") "p" = none ∧
    alookup (experiment_plot_delete wPlot "e1" "p").1.disk.figFiles "e1_p" = some "BYTES" ∧
    alookup wPlot.disk.figFiles "e1_p" = some "BYTES" ∧
    wPlot.disk.expFile = some wPlot.experiments :=
  ⟨rfl, rfl, rfl, rfl, rfl⟩

/-! ## Claim C2: string facts about figure file names -/

theorem sdata_append (a b : String) : (a ++ b).data = a.data ++ b.data := by
  cases a
  cases b
  rfl

theorem smk_data (s : String) : (⟨s.data⟩ : String) = s := by
  cases s
  rfl

theorem fname_data (e : Value) (n : String) :
    (fname e n).data = (vstr e).data ++ '_' :: n.data := by
  unfold fname
  rw [sdata_append, sdata_append]
  simp

theorem sPrefixOf_fname (e : Value) (n : String) :
    sPrefixOf (vstr e) (fname e n) = true := by
  unfold sPrefixOf
  rw [fname_data, List.isPrefixOf_iff_prefix]
  exact List.prefix_append _ _

theorem sDrop_fname (e : Value) (n : String) :
    sDrop (fname e n) (sLen (vstr e) + 1) = n := by
  unfold sDrop sLen
  rw [fname_data]
  have h : (vstr e).data ++ '_' :: n.data = ((vstr e).data ++ ['_']) ++ n.data := by
    simp
  rw [h]
  have hlen : ((vstr e).data ++ ['_']).length = (vstr e).data.length + 1 := by
    simp
  rw [← hlen, List.drop_left, smk_data]

theorem fname_cancel {e : Value} {n n' : String} (h : fname e n = fname e n') : n = n' := by
  have hd : (fname e n).data = (fname e n').data := by rw [h]
  rw [fname_data, fname_data] at hd
  have h2 := List.append_cancel_left hd
  simp only [List.cons.injEq, true_and] at h2
  exact String.ext h2

/-! ## Claim C2: association-list membership lemmas -/

theorem mem_aset_of_ne {κ β : Type} [DecidableEq κ] {l : List (κ × β)} {k : κ} {v : β}
    {p : κ × β} (hp : p ∈ l) (hne : p.1 ≠ k) : p ∈ aset l k v := by
  induction l with
  | nil => simp at hp
  | cons p0 t ih =>
    obtain ⟨k0, v0⟩ := p0
    rcases List.mem_cons.mp hp with h | h
    · subst h
      unfold aset
      rw [if_neg (by simpa using hne)]
      exact List.mem_cons_self _ _
    · unfold aset
      by_cases hk : k0 = k
      · rw [if_pos hk]
        exact List.mem_cons_of_mem _ h
      · rw [if_neg hk]
        exact List.mem_cons_of_mem _ (ih h)

theorem mem_aset_self {κ β : Type} [DecidableEq κ] (l : List (κ × β)) (k : κ) (v : β) :
    (k, v) ∈ aset l k v := by
  induction l with
  | nil => simp [aset]
  | cons p0 t ih =>
    obtain ⟨k0, v0⟩ := p0
    unfold aset
    by_cases hk : k0 = k
    · rw [if_pos hk]
      exact List.mem_cons_self _ _
    · rw [if_neg hk]
      exact List.mem_cons_of_mem _ ih

theorem mem_aset_cases {κ β : Type} [DecidableEq κ] {l : List (κ × β)} {k : κ} {v : β}
    {p : κ × β} (hp : p ∈ aset l k v) : p ∈ l ∨ p = (k, v) := by
  induction l with
  | nil =>
    simp [aset] at hp
    right
    simp [hp]
  | cons p0 t ih =>
    obtain ⟨k0, v0⟩ := p0
    unfold aset at hp
    by_cases hk : k0 = k
    · rw [if_pos hk] at hp
      rcases List.mem_cons.mp hp with h | h
      · right; exact h
      · left; exact List.mem_cons_of_mem _ h
    · rw [if_neg hk] at hp
      rcases List.mem_cons.mp hp with h | h
      · left; exact h ▸ List.mem_cons_self _ _
      · rcases ih h with h1 | h1
        · left; exact List.mem_cons_of_mem _ h1
        · right; exact h1

theorem value_unique_of_nodup {κ β : Type} [DecidableEq κ] {l : List (κ × β)}
    (hnd : NodupKeys l) {k : κ} {v1 v2 : β} (h1 : (k, v1) ∈ l) (h2 : (k, v2) ∈ l) :
    v1 = v2 := by
  have e1 := mem_alookup_of_nodup hnd h1
  have e2 := mem_alookup_of_nodup hnd h2
  have e3 : some v1 = some v2 := e1.symm.trans e2
  injection e3

theorem alookup_eq_of_unique {κ β : Type} [DecidableEq κ] {l : List (κ × β)} {k : κ} {v : β}
    (hmem : (k, v) ∈ l) (huniq : ∀ q ∈ l, q.1 = k → q.2 = v) : alookup l k = some v := by
  induction l with
  | nil => simp at hmem
  | cons p0 t ih =>
    obtain ⟨k0, v0⟩ := p0
    by_cases hk : k = k0
    · subst hk
      rw [alookup_cons, if_pos rfl]
      exact congrArg some (huniq (k, v0) (List.mem_cons_self _ _) rfl)
    · rw [alookup_cons, if_neg hk]
      rcases List.mem_cons.mp hmem with h | h
      · exact absurd (congrArg Prod.fst h) (by simpa using hk)
      · exact ih h (fun q hq => huniq q (List.mem_cons_of_mem _ hq))

theorem revLookup_eq_of_unique {κ β : Type} [DecidableEq κ] {l : List (κ × β)} {k : κ} {v : β}
    (hmem : (k, v) ∈ l) (huniq : ∀ q ∈ l, q.1 = k → q.2 = v) : revLookup l k = some v := by
  unfold revLookup
  exact alookup_eq_of_unique (List.mem_reverse.mpr hmem)
    (fun q hq => huniq q (List.mem_reverse.mp hq))

theorem revLookup_isSome_iff {κ β : Type} [DecidableEq κ] (l : List (κ × β)) (k : κ) :
    (revLookup l k).isSome ↔ k ∈ akeys l := by
  unfold revLookup
  rw [alookup_isSome_iff_mem]
  unfold akeys
  rw [List.map_reverse, List.mem_reverse]

/-! ## Claim C2: the figure directory after a flush -/

theorem flush_lookup (figs figs0 : FigMap) (d : List (String × String))
    (hd : NodupKeys d)
    (hold : ∀ fn, alookup d fn = revLookup (render figs0) fn)
    (hmono : ∀ fn, (revLookup (render figs0) fn).isSome = true →
        (revLookup (render figs) fn).isSome = true) :
    (∀ fn, alookup (writeFigs figs d) fn = revLookup (render figs) fn) ∧
      NodupKeys (writeFigs figs d) := by
  constructor
  · intro fn
    unfold writeFigs
    rw [alookup_writeAll]
    cases h : revLookup (render figs) fn with
    | some v => simp [ofirst, h]
    | none =>
      simp only [h, ofirst]
      rw [hold]
      cases h0 : revLookup (render figs0) fn with
      | none => rfl
      | some w =>
        have := hmono fn (by simp [h0])
        rw [h] at this
        exact absurd this (by simp)
  · exact nodupKeys_writeAll _ _ hd

/-! ## Claim C2: keys of the rendered figure directory -/

theorem mem_akeys_render {figs : FigMap} {fn : String} :
    fn ∈ akeys (render figs) ↔ ∃ p ∈ figs, ∃ q ∈ p.2, fn = fname p.1 q.1 := by
  unfold akeys render
  simp only [List.map_flatMap, List.mem_flatMap, List.mem_map, List.map_map]
  constructor
  · rintro ⟨p, hp, hq⟩
    simp only [Function.comp, List.mem_map] at hq
    obtain ⟨q, hq, hfn⟩ := hq
    exact ⟨p, hp, q, hq, hfn.symm⟩
  · rintro ⟨p, hp, q, hq, hfn⟩
    refine ⟨p, hp, ?_⟩
    simp only [Function.comp, List.mem_map]
    exact ⟨q, hq, hfn.symm⟩

theorem mem_render {figs : FigMap} {fn : String} {b : String} :
    (fn, b) ∈ render figs ↔ ∃ p ∈ figs, ∃ q ∈ p.2, fn = fname p.1 q.1 ∧ b = q.2 := by
  unfold render
  simp only [List.mem_flatMap, List.mem_map]
  constructor
  · rintro ⟨p, hp, q, hq, hfn⟩
    have h1 : fname p.1 q.1 = fn := congrArg Prod.fst hfn
    have h2 : q.2 = b := congrArg Prod.snd hfn
    exact ⟨p, hp, q, hq, h1.symm, h2.symm⟩
  · rintro ⟨p, hp, q, hq, hfn, hb⟩
    exact ⟨p, hp, q, hq, by rw [hfn, hb]⟩

/-! ## Claim C2: the rendered directory read back through `revLookup` -/

/-- Pairwise injectivity of figure file names over a figure dict. -/
def FnameInj (figs : FigMap) : Prop :=
  ∀ p ∈ figs, ∀ q ∈ p.2, ∀ p' ∈ figs, ∀ q' ∈ p'.2,
    fname p.1 q.1 = fname p'.1 q'.1 → p.1 = p'.1 ∧ q.1 = q'.1

theorem revLookup_render_of_flat {figs : FigMap} (hwf : FigsWF figs) (hinj : FnameInj figs)
    {e : Value} {n : String} {b : String} (hflat : flatLookup figs e n = some b) :
    revLookup (render figs) (fname e n) = some b := by
  unfold flatLookup at hflat
  cases hin : alookup figs e with
  | none =>
    rw [hin] at hflat
    exact Option.noConfusion hflat
  | some inner =>
    rw [hin] at hflat
    have hflat2 : alookup inner n = some b := hflat
    have hpmem : (e, inner) ∈ figs := alookup_eq_some_mem hin
    have hqmem : (n, b) ∈ inner := alookup_eq_some_mem hflat2
    refine revLookup_eq_of_unique (mem_render.mpr ⟨(e, inner), hpmem, (n, b), hqmem, rfl, rfl⟩) ?_
    rintro ⟨fn', b'⟩ hq' hk
    obtain ⟨p, hp, q, hq, hfn, hb⟩ := mem_render.mp hq'
    subst hb
    have hk' : fn' = fname e n := hk
    have hkey : fname p.1 q.1 = fname e n := by rw [← hfn]; exact hk'
    obtain ⟨hpe, hqn⟩ := hinj p hp q hq (e, inner) hpmem (n, b) hqmem hkey
    have hpe' : p.1 = e := hpe
    have hqn' : q.1 = n := hqn
    have hmem2 : (e, p.2) ∈ figs := by
      rw [← hpe']
      exact hp
    have hinner : p.2 = inner := value_unique_of_nodup hwf.1 hmem2 hpmem
    have hmem3 : (n, q.2) ∈ inner := by
      rw [← hqn', ← hinner]
      exact hq
    have hwfi : NodupKeys inner := hwf.2 (e, inner) hpmem
    have hb2 : q.2 = b := value_unique_of_nodup hwfi hmem3 hqmem
    exact hb2

theorem fnameInj_of_conditions {st : ClientState}
    (hown : ∀ p ∈ st.figures, p.2 ≠ [] → ∃ r ∈ st.experiments, getF r "uuid" = p.1)
    (hpre : ∀ r ∈ st.experiments, ∀ p ∈ st.figures, ∀ q ∈ p.2,
        sPrefixOf (vstr (getF r "uuid")) (fname p.1 q.1) = true → getF r "uuid" = p.1) :
    FnameInj st.figures := by
  intro p hp q hq p' hp' q' hq' hfn
  have hpe : p.1 = p'.1 := by
    obtain ⟨r, hr, hru⟩ := hown p hp (by intro hnil; rw [hnil] at hq; simp at hq)
    have hpref : sPrefixOf (vstr (getF r "uuid")) (fname p'.1 q'.1) = true := by
      rw [← hfn, hru]
      exact sPrefixOf_fname _ _
    have := hpre r hr p' hp' q' hq' hpref
    rw [← hru, this]
  refine ⟨hpe, ?_⟩
  rw [hpe] at hfn
  exact fname_cancel hfn

/-! ## Claim C2: reading `_get_figure_list` output -/

theorem alookup_getFigureList (files : List (String × String)) (exps : List Rec) (e : Value) :
    alookup (getFigureList files exps) e =
      if (exps.find? (fun r => getF r "uuid" == e)).isSome then
        some (files.filterMap (fun q =>
          if sPrefixOf (vstr e) q.1 then
            some (sDrop q.1 (sLen (vstr e) + 1), q.2)
          else none))
      else none := by
  induction exps with
  | nil => simp [getFigureList, alookup]
  | cons r t ih =>
    simp only [getFigureList, List.map_cons] at ih ⊢
    by_cases h : e = getF r "uuid"
    · rw [alookup_cons, if_pos h, List.find?_cons_of_pos _ (by simp [h.symm])]
      simp only [Option.isSome_some, if_true, ← h]
    · rw [alookup_cons, if_neg h, List.find?_cons_of_neg _ (by simp; intro hh; exact absurd hh.symm h)]
      exact ih

theorem alookup_filterMap_startsWith (files : List (String × String)) (us : String) (n : String) :
    alookup (files.filterMap (fun q =>
        if sPrefixOf us q.1 then some (sDrop q.1 (sLen us + 1), q.2) else none)) n =
      (files.find? (fun q => sPrefixOf us q.1 &&
        (sDrop q.1 (sLen us + 1) == n))).map Prod.snd := by
  induction files with
  | nil => simp [alookup]
  | cons q t ih =>
    simp only [List.filterMap_cons]
    cases hp : sPrefixOf us q.1 with
    | true =>
      simp only [hp, if_true]
      by_cases hn : n = sDrop q.1 (sLen us + 1)
      · rw [alookup_cons, if_pos hn, List.find?_cons_of_pos _ (by simp [hp, hn.symm])]
        rfl
      · rw [alookup_cons, if_neg hn,
          List.find?_cons_of_neg _ (by simp [hp]; intro hh; exact absurd hh.symm hn)]
        exact ih
    | false =>
      simp only [hp, Bool.false_eq_true, if_false]
      rw [List.find?_cons_of_neg _ (by simp [hp])]
      exact ih

theorem find?_key_eq {β : Type} (pred : String → Bool) (k0 : String)
    (files : List (String × β))
    (hall : ∀ q ∈ files, pred q.1 = true → q.1 = k0) :
    files.find? (fun q => pred q.1) =
      if pred k0 then (alookup files k0).map (fun b => (k0, b)) else none := by
  induction files with
  | nil => simp [alookup]
  | cons q t ih =>
    obtain ⟨k, v⟩ := q
    cases hp : pred k with
    | true =>
      have hk : k = k0 := hall (k, v) (List.mem_cons_self _ _) hp
      subst hk
      rw [List.find?_cons_of_pos _ (by simpa using hp), if_pos hp, alookup_cons, if_pos rfl]
      rfl
    | false =>
      rw [List.find?_cons_of_neg _ (by simp [hp])]
      rw [ih (fun q hq hpq => hall q (List.mem_cons_of_mem _ hq) hpq)]
      by_cases hk : k = k0
      · subst hk
        simp [hp]
      · rw [alookup_cons, if_neg (show ¬k0 = k from fun hh => hk hh.symm)]

/-! ## Claim C2: invariant preservation -/

theorem save_disk_of_localSave {s : ClientState} (h : s.localSave = true) :
    (save s).disk = ⟨some s.experiments, some s.results,
      writeFigs s.figures s.disk.figFiles⟩ := by
  unfold save
  rw [if_pos h]

theorem inv_save (st : ClientState) (E R : List Rec) (figs : FigMap)
    (hInv : Inv st) (hwf : FigsWF figs)
    (hmono : ∀ fn, (revLookup (render st.figures) fn).isSome = true →
        (revLookup (render figs) fn).isSome = true) :
    Inv (save { st with experiments := E, results := R, figures := figs }) := by
  obtain ⟨hls, _, _, hnd, hfile, _⟩ := hInv
  have hls' : ({ st with experiments := E, results := R, figures := figs } :
      ClientState).localSave = true := hls
  have hsave := save_disk_of_localSave hls'
  obtain ⟨hlk, hnd'⟩ := flush_lookup figs st.figures st.disk.figFiles hnd hfile hmono
  refine ⟨?_, ?_, ?_, ?_, ?_, ?_⟩
  · rw [save_localSave]
    exact hls
  · rw [hsave, save_experiments]
  · rw [hsave, save_results]
  · rw [hsave]
    exact hnd'
  · intro fn
    rw [hsave, save_figures]
    exact hlk fn
  · rw [save_figures]
    exact hwf

theorem akeys_append {κ β : Type} (l1 l2 : List (κ × β)) :
    akeys (l1 ++ l2) = akeys l1 ++ akeys l2 := by
  unfold akeys
  rw [List.map_append]

theorem render_keys_upload_existing {figs : FigMap} {key : Value}
    {inner : List (String × String)} (hwf : FigsWF figs)
    (hin : alookup figs key = some inner) (n c : String) :
    ∀ fn, fn ∈ akeys (render figs) →
      fn ∈ akeys (render (aset figs key (inner ++ [(n, c)]))) := by
  intro fn h
  obtain ⟨p, hp, q, hq, hfn⟩ := mem_akeys_render.mp h
  by_cases hpk : p.1 = key
  · have hmem2 : (key, p.2) ∈ figs := by
      rw [← hpk]
      exact hp
    have hpinner : p.2 = inner :=
      value_unique_of_nodup hwf.1 hmem2 (alookup_eq_some_mem hin)
    refine mem_akeys_render.mpr
      ⟨(key, inner ++ [(n, c)]), mem_aset_self figs key _, q, ?_, ?_⟩
    · exact List.mem_append_left _ (hpinner ▸ hq)
    · rw [hfn, hpk]
  · exact mem_akeys_render.mpr ⟨p, mem_aset_of_ne hp hpk, q, hq, hfn⟩

theorem render_keys_append (figs : FigMap) (entry : Value × List (String × String)) :
    ∀ fn, fn ∈ akeys (render figs) → fn ∈ akeys (render (figs ++ [entry])) := by
  intro fn h
  obtain ⟨p, hp, q, hq, hfn⟩ := mem_akeys_render.mp h
  exact mem_akeys_render.mpr ⟨p, List.mem_append_left _ hp, q, hq, hfn⟩

theorem render_keys_update {figs : FigMap} {key : Value}
    {inner : List (String × String)} (hwf : FigsWF figs)
    (hin : alookup figs key = some inner) (n c : String) :
    ∀ fn, fn ∈ akeys (render figs) →
      fn ∈ akeys (render (aset figs key (aset inner n c))) := by
  intro fn h
  obtain ⟨p, hp, q, hq, hfn⟩ := mem_akeys_render.mp h
  by_cases hpk : p.1 = key
  · have hmem2 : (key, p.2) ∈ figs := by
      rw [← hpk]
      exact hp
    have hpinner : p.2 = inner :=
      value_unique_of_nodup hwf.1 hmem2 (alookup_eq_some_mem hin)
    by_cases hqn : q.1 = n
    · refine mem_akeys_render.mpr
        ⟨(key, aset inner n c), mem_aset_self figs key _, (n, c), mem_aset_self inner n c, ?_⟩
      rw [hfn, hpk, hqn]
    · refine mem_akeys_render.mpr
        ⟨(key, aset inner n c), mem_aset_self figs key _, q,
          mem_aset_of_ne (hpinner ▸ hq) hqn, ?_⟩
      rw [hfn, hpk]
  · exact mem_akeys_render.mpr ⟨p, mem_aset_of_ne hp hpk, q, hq, hfn⟩

theorem figsWF_upload_existing {figs : FigMap} {key : Value}
    {inner : List (String × String)} (hwf : FigsWF figs)
    (hin : alookup figs key = some inner) {n : String} (c : String)
    (hnew : alookup inner n = none) :
    FigsWF (aset figs key (inner ++ [(n, c)])) := by
  refine ⟨nodupKeys_aset _ _ _ hwf.1, ?_⟩
  intro p hp
  rcases mem_aset_cases hp with h | h
  · exact hwf.2 p h
  · subst h
    show NodupKeys (inner ++ [(n, c)])
    unfold NodupKeys
    rw [akeys_append]
    refine List.Nodup.append (hwf.2 (key, inner) (alookup_eq_some_mem hin)) ?_ ?_
    · simp [akeys]
    · intro a ha hak
      simp [akeys] at hak
      subst hak
      rw [alookup_eq_none_iff] at hnew
      exact hnew ha

theorem figsWF_upload_new {figs : FigMap} {key : Value}
    (hwf : FigsWF figs) (hnew : alookup figs key = none) (n c : String) :
    FigsWF (figs ++ [(key, [(n, c)])]) := by
  constructor
  · unfold NodupKeys
    rw [akeys_append]
    refine List.Nodup.append hwf.1 (by simp [akeys]) ?_
    intro a ha hak
    simp [akeys] at hak
    subst hak
    rw [alookup_eq_none_iff] at hnew
    exact hnew ha
  · intro p hp
    rcases List.mem_append.mp hp with h | h
    · exact hwf.2 p h
    · simp at h
      subst h
      simp [NodupKeys, akeys]

theorem figsWF_update {figs : FigMap} {key : Value}
    {inner : List (String × String)} (hwf : FigsWF figs)
    (hin : alookup figs key = some inner) (n c : String) :
    FigsWF (aset figs key (aset inner n c)) := by
  refine ⟨nodupKeys_aset _ _ _ hwf.1, ?_⟩
  intro p hp
  rcases mem_aset_cases hp with h | h
  · exact hwf.2 p h
  · subst h
    exact nodupKeys_aset _ _ _ (hwf.2 (key, inner) (alookup_eq_some_mem hin))

theorem aset_append_fresh {figs : FigMap} {key : Value}
    (hnew : alookup figs key = none) (v : List (String × String)) :
    aset (figs ++ [(key, [])]) key v = figs ++ [(key, v)] := by
  induction figs with
  | nil => simp [aset]
  | cons p t ih =>
    obtain ⟨k0, v0⟩ := p
    rw [alookup_cons] at hnew
    by_cases hk : key = k0
    · rw [if_pos hk] at hnew
      exact Option.noConfusion hnew
    · rw [if_neg hk] at hnew
      simp only [List.cons_append]
      unfold aset
      rw [if_neg (fun hh => hk hh.symm)]
      rw [ih hnew]

theorem inv_applyOp (st : ClientState) (op : Op) (hop : op.isPlotDel = false)
    (hInv : Inv st) : Inv (applyOp st op) := by
  have hwf0 : FigsWF st.figures := hInv.2.2.2.2.2
  cases op with
  | expUpload payload fid =>
    simp only [applyOp]
    unfold experiment_upload
    cases hany : st.experiments.any (fun r => peq (getF r "uuid")
        (getF (if hasKey payload "uuid" then payload
          else setF payload "uuid" (.str fid)) "uuid")) with
    | true =>
      simp only [hany, if_true]
      exact hInv
    | false =>
      simp only [hany, Bool.false_eq_true, if_false]
      exact inv_save st _ _ _ hInv hwf0 (fun fn h => h)
  | expUpdate id payload =>
    simp only [applyOp]
    unfold experiment_update
    cases h1 : updateFirst (fun r => peq (getF r "uuid") (.str id))
        (fun r => payload.foldl (fun row q => setF row q.1 q.2) r) st.experiments with
    | none => exact hInv
    | some exps =>
      cases h2 : List.find? (fun r => peq (getF r "uuid") (Value.str id))
          (save { st with experiments := exps }).experiments with
      | none =>
        simp only [h2]
        exact inv_save st _ _ _ hInv hwf0 (fun fn h => h)
      | some r =>
        simp only [h2]
        exact inv_save st _ _ _ hInv hwf0 (fun fn h => h)
  | expDelete id =>
    simp only [applyOp]
    unfold experiment_delete
    cases h1 : List.find? (fun r => peq (getF r "uuid") (Value.str id))
        st.experiments with
    | none => exact hInv
    | some r =>
      simp only [h1]
      exact inv_save st _ _ _ hInv hwf0 (fun fn h => h)
  | resCreate payload fid =>
    simp only [applyOp]
    unfold analysis_result_create
    split
    · exact hInv
    · exact hInv
    · split
      · exact hInv
      · exact inv_save st _ _ _ hInv hwf0 (fun fn h => h)
  | resUpdate id payload =>
    simp only [applyOp]
    unfold analysis_result_update
    cases h1 : updateFirst (fun r => peq (getF r "uuid") (.str id))
        (fun r => payload.foldl (fun row q => setF row q.1 q.2) r) st.results with
    | none => exact hInv
    | some ress =>
      cases h2 : List.find? (fun r => peq (getF r "uuid") (Value.str id))
          (save { st with results := ress }).results with
      | none =>
        simp only [h2]
        exact inv_save st _ _ _ hInv hwf0 (fun fn h => h)
      | some r =>
        simp only [h2]
        exact inv_save st _ _ _ hInv hwf0 (fun fn h => h)
  | resDelete id =>
    simp only [applyOp]
    unfold analysis_result_delete
    cases h1 : List.find? (fun r => peq (getF r "uuid") (Value.str id)) st.results with
    | none => exact hInv
    | some r =>
      simp only [h1]
      exact inv_save st _ _ _ hInv hwf0 (fun fn h => h)
  | plotUpload e n c =>
    simp only [applyOp]
    unfold experiment_plot_upload
    cases h1 : alookup st.figures (Value.str e) with
    | some inner =>
      simp only [h1, Option.getD]
      cases h2 : alookup inner n with
      | some b =>
        simp only [h2]
        exact hInv
      | none =>
        simp only [h2]
        refine inv_save st _ _ _ hInv
          (figsWF_upload_existing hwf0 h1 c h2) ?_
        intro fn h
        rw [revLookup_isSome_iff] at h ⊢
        exact render_keys_upload_existing hwf0 h1 n c fn h
    | none =>
      have hf : alookup (st.figures ++ [(Value.str e, [])]) (Value.str e) = some [] := by
        rw [alookup_append, h1]
        simp [ofirst, alookup]
      simp only [h1, hf, Option.getD]
      simp only [alookup]
      rw [aset_append_fresh h1]
      refine inv_save st _ _ _ hInv
        (figsWF_upload_new hwf0 h1 n c) ?_
      intro fn h
      rw [revLookup_isSome_iff] at h ⊢
      exact render_keys_append st.figures _ fn h
  | plotUpdate e n c =>
    simp only [applyOp]
    unfold experiment_plot_update
    cases h1 : alookup st.figures (Value.str e) with
    | none => exact hInv
    | some inner =>
      simp only [h1]
      cases h2 : alookup inner n with
      | none =>
        simp only [h2]
        exact hInv
      | some b =>
        simp only [h2]
        refine inv_save st _ _ _ hInv (figsWF_update hwf0 h1 n c) ?_
        intro fn h
        rw [revLookup_isSome_iff] at h ⊢
        exact render_keys_update hwf0 h1 n c fn h
  | plotDelete e n =>
    exact Bool.noConfusion hop

theorem inv_initState : Inv initState := by
  refine ⟨rfl, rfl, rfl, ?_, ?_, ?_, ?_⟩
  · simp [NodupKeys, akeys, initState, init_db, save, getFigureList, writeFigs, render]
  · intro fn
    rfl
  · simp [NodupKeys, akeys, initState, init_db, save, getFigureList, writeFigs, render]
  · intro p hp
    simp [initState, init_db, save, getFigureList] at hp

theorem inv_applyOps (ops : List Op) (hnd : noPlotDel ops = true) :
    Inv (applyOps ops) := by
  unfold applyOps
  unfold noPlotDel at hnd
  have main : ∀ (l : List Op) (st : ClientState),
      l.all (fun op => !op.isPlotDel) = true → Inv st → Inv (l.foldl applyOp st) := by
    intro l
    induction l with
    | nil => intro st _ h; exact h
    | cons op t ih =>
      intro st hall h
      rw [List.all_cons, Bool.and_eq_true] at hall
      have hop : op.isPlotDel = false := by
        have := hall.1
        cases hval : op.isPlotDel
        · rfl
        · rw [hval] at this; exact absurd this (by simp)
      exact ih _ hall.2 (inv_applyOp st op hop h)
  exact main ops initState hnd inv_initState

/-! ## Claim C2: the reload round trip -/

theorem reload_eq (st : ClientState) (hInv : Inv st)
    (hown : figOwnersOk st = true) (hpre : figPrefixOk st = true) :
    (reload st).experiments = st.experiments ∧
    (reload st).results = st.results ∧
    ∀ e n, flatLookup (reload st).figures e n = flatLookup st.figures e n := by
  obtain ⟨hls, hef, hrf, hnd, hfile, hwf⟩ := hInv
  have hownP : ∀ p ∈ st.figures, p.2 ≠ [] →
      ∃ r ∈ st.experiments, getF r "uuid" = p.1 := by
    intro p hp hne
    unfold figOwnersOk at hown
    rw [List.all_eq_true] at hown
    have h1 := hown p hp
    rw [Bool.or_eq_true] at h1
    rcases h1 with h | h
    · rw [List.isEmpty_iff] at h
      exact absurd h hne
    · rw [List.any_eq_true] at h
      obtain ⟨r, hr, hru⟩ := h
      exact ⟨r, hr, by rwa [beq_iff_eq] at hru⟩
  have hpreP : ∀ r ∈ st.experiments, ∀ p ∈ st.figures, ∀ q ∈ p.2,
      sPrefixOf (vstr (getF r "uuid")) (fname p.1 q.1) = true →
        getF r "uuid" = p.1 := by
    intro r hr p hp q hq hpref
    unfold figPrefixOk at hpre
    rw [List.all_eq_true] at hpre
    have h1 := hpre r hr
    rw [List.all_eq_true] at h1
    have h2 := h1 p hp
    rw [List.all_eq_true] at h2
    have h3 := h2 q hq
    rw [Bool.or_eq_true] at h3
    rcases h3 with h | h
    · exfalso
      have hfalse : sPrefixOf (vstr (getF r "uuid")) (fname p.1 q.1) = false := by
        cases hval : sPrefixOf (vstr (getF r "uuid")) (fname p.1 q.1)
        · rfl
        · rw [hval] at h; exact absurd h (by simp)
      rw [hpref] at hfalse
      exact Bool.noConfusion hfalse
    · rwa [beq_iff_eq] at h
  have hinj : FnameInj st.figures :=
    fnameInj_of_conditions hownP hpreP
  have hreload : reload st = save (ClientState.mk st.experiments st.results
      (getFigureList st.disk.figFiles st.experiments) true st.disk) := by
    unfold reload init_db
    rw [if_pos rfl, hef, hrf]
    rfl
  refine ⟨?_, ?_, ?_⟩
  · rw [hreload, save_experiments]
  · rw [hreload, save_results]
  · intro e n
    rw [hreload, save_figures]
    show (alookup (getFigureList st.disk.figFiles st.experiments) e).bind
        (fun inner => alookup inner n) =
      (alookup st.figures e).bind (fun inner => alookup inner n)
    rw [alookup_getFigureList]
    cases hfind : (st.experiments.find? (fun r => getF r "uuid" == e)).isSome with
    | false =>
      rw [if_neg (by simp)]
      cases hflat : alookup st.figures e with
      | none => rfl
      | some inner =>
        cases hflat2 : alookup inner n with
        | none =>
          show (none : Option String) = alookup inner n
          rw [hflat2]
        | some b =>
          exfalso
          have hpmem : (e, inner) ∈ st.figures := alookup_eq_some_mem hflat
          obtain ⟨r, hr, hru⟩ := hownP (e, inner) hpmem
            (by
              intro hnil
              have hnil2 : inner = [] := hnil
              rw [hnil2] at hflat2
              exact Option.noConfusion hflat2)
          have hS : (st.experiments.find? (fun r => getF r "uuid" == e)).isSome = true :=
            List.find?_isSome.mpr ⟨r, hr, by simpa [beq_iff_eq] using hru⟩
          rw [hfind] at hS
          exact Bool.noConfusion hS
    | true =>
      rw [if_pos rfl]
      have hfindS : ∃ r ∈ st.experiments, (getF r "uuid" == e) = true :=
        List.find?_isSome.mp (by rw [hfind])
      obtain ⟨r0, hr0, hr0e⟩ := hfindS
      have hr0e' : getF r0 "uuid" = e := by rwa [beq_iff_eq] at hr0e
      show alookup (st.disk.figFiles.filterMap (fun q =>
          if sPrefixOf (vstr e) q.1 then
            some (sDrop q.1 (sLen (vstr e) + 1), q.2)
          else none)) n =
        (alookup st.figures e).bind (fun inner => alookup inner n)
      rw [alookup_filterMap_startsWith]
      have hall : ∀ q ∈ st.disk.figFiles,
          (sPrefixOf (vstr e) q.1 && (sDrop q.1 (sLen (vstr e) + 1) == n)) = true →
            q.1 = fname e n := by
        rintro ⟨fn, b⟩ hq hcond
        rw [Bool.and_eq_true] at hcond
        have hkey : fn ∈ akeys st.disk.figFiles :=
          List.mem_map.mpr ⟨(fn, b), hq, rfl⟩
        have h1 : (alookup st.disk.figFiles fn).isSome = true :=
          (alookup_isSome_iff_mem _ _).mpr hkey
        rw [hfile, revLookup_isSome_iff] at h1
        obtain ⟨p, hp, q', hq', hfn⟩ := mem_akeys_render.mp h1
        have hpe : getF r0 "uuid" = p.1 :=
          hpreP r0 hr0 p hp q' hq' (by rw [← hfn, hr0e']; exact hcond.1)
        have hpe' : p.1 = e := by rw [← hpe, hr0e']
        have hfn2 : fn = fname e q'.1 := by rw [hfn, hpe']
        have hdrop : sDrop fn (sLen (vstr e) + 1) = q'.1 := by
          rw [hfn2, sDrop_fname]
        have hcond2 : sDrop fn (sLen (vstr e) + 1) = n := by
          have := hcond.2
          rwa [beq_iff_eq] at this
        have hn : q'.1 = n := by rw [← hdrop, hcond2]
        show fn = fname e n
        rw [hfn2, hn]
      rw [find?_key_eq (fun x => sPrefixOf (vstr e) x &&
            (sDrop x (sLen (vstr e) + 1) == n)) (fname e n) st.disk.figFiles hall,
        if_pos (show (sPrefixOf (vstr e) (fname e n) &&
          (sDrop (fname e n) (sLen (vstr e) + 1) == n)) = true by
            rw [sPrefixOf_fname, sDrop_fname]; simp)]
      rw [Option.map_map]
      have hmapid : (Prod.snd ∘ fun b : String => ((fname e n, b) : String × String)) =
          fun b => b := rfl
      rw [hmapid]
      have hid : ∀ x : Option String, x.map (fun b => b) = x := by
        intro x
        cases x <;> rfl
      rw [hid, hfile]
      show revLookup (render st.figures) (fname e n) = flatLookup st.figures e n
      cases hflat : flatLookup st.figures e n with
      | some b => exact revLookup_render_of_flat hwf hinj hflat
      | none =>
        cases hrev : revLookup (render st.figures) (fname e n) with
        | none => rfl
        | some w =>
          exfalso
          have h1 : fname e n ∈ akeys (render st.figures) :=
            (revLookup_isSome_iff _ _).mp (by rw [hrev]; rfl)
          obtain ⟨p, hp, q', hq', hfn⟩ := mem_akeys_render.mp h1
          have hpe : getF r0 "uuid" = p.1 :=
            hpreP r0 hr0 p hp q' hq' (by rw [← hfn, hr0e']; exact sPrefixOf_fname e n)
          have hpe' : p.1 = e := by rw [← hpe, hr0e']
          have hfn2 : fname e n = fname e q'.1 := by rw [hfn, hpe']
          have hq'n : n = q'.1 := fname_cancel hfn2
          have ha1 : alookup st.figures e = some p.2 := by
            refine mem_alookup_of_nodup hwf.1 ?_
            rw [← hpe']
            exact hp
          have ha2 : alookup p.2 n = some q'.2 := by
            refine mem_alookup_of_nodup (hwf.2 p hp) ?_
            rw [hq'n]
            exact hq'
          have hcontr : flatLookup st.figures e n = some q'.2 := by
            unfold flatLookup
            rw [ha1]
            exact ha2
          rw [hflat] at hcontr
          exact Option.noConfusion hcontr

/-- Counterexample to C2 as stated: the round trip is not exact.  A plot
uploaded for an experiment identifier that is not in the experiments table
survives only in memory and on disk as a file: `_get_figure_list` rebuilds
the figure dict from the uuids of the experiments table, so after a reload
the (e1, p) blob is gone from the in-memory map. -/
theorem claim_c2_counterexample :
    flatLookup (applyOps [Op.plotUpload "e1" "p" "B"]).figures (.str "e1") "p" =
      some "B" ∧
    flatLookup (reload (applyOps [Op.plotUpload "e1" "p" "B"])).figures
      (.str "e1") "p" = none :=
  ⟨rfl, rfl⟩

/-- Claim C2 (amended): after any sequence of mutations on a fresh
locally-saving client that contains no plot deletion (the one mutation that
skips the flush, claim C1), provided the final state has no orphan blobs
(every stored figure belongs to an experiment still in the table — the
reload groups files by the table's uuids) and no experiment uuid is a
proper prefix of another figure's file name (the reload assigns files by
`startswith`), constructing a new client over the same storage directory
reproduces the pre-restart in-memory state: the same experiment records,
the same analysis-result records, and the same (experiment identifier,
plot name) → bytes map. -/
theorem claim_c2_roundtrip :
    ∀ ops : List Op, noPlotDel ops = true →
      figOwnersOk (applyOps ops) = true →
      figPrefixOk (applyOps ops) = true →
      (reload (applyOps ops)).experiments = (applyOps ops).experiments ∧
      (reload (applyOps ops)).results = (applyOps ops).results ∧
      ∀ e n, flatLookup (reload (applyOps ops)).figures e n =
        flatLookup (applyOps ops).figures e n := by
  intro ops h1 h2 h3
  exact reload_eq _ (inv_applyOps ops h1) h2 h3

/-- Witness for the amended C2: uploading experiment `e1` and then a plot
for it, the reload over the same directory reproduces the tables and the
blob map. -/
theorem claim_c2_roundtrip_witness :
    (reload (applyOps wOps)).experiments = (applyOps wOps).experiments ∧
    (reload (applyOps wOps)).results = (applyOps wOps).results ∧
    ∀ e n, flatLookup (reload (applyOps wOps)).figures e n =
      flatLookup (applyOps wOps).figures e n :=
  claim_c2_roundtrip wOps rfl rfl rfl

end LocalClient
